import Mathlib

/-!
# MySQL compatibility functions: a shallow embedding of `mysql_compatibility.c`

The C functions of `src/mysql_compatibility.c` are rendered as Lean functions.

* A C `char` is a `Char`; a text datum is a `List Char` holding no NUL.
  A C string in memory is its characters followed by the terminator `NUL`.
* `int` and `int64` values are `Int`s; arithmetic that can leave the range is
  wrapped with `wrap32` / `wrap64`.  C division and remainder truncate toward
  zero (`Int.tdiv`, `Int.tmod`).
* Routines of the host (PostgreSQL, the C library) that the file calls but does
  not define are either given their documented behaviour
  (`appendBinaryStringInfo`, the epoch constants, `sscanf`, the store through
  `fsec` in `timestamp2tm`) or taken as parameters (the calendar of
  `timestamp2tm`, `pg_get_day`).  The helpers `pg_strtok_r`, `str_trim`,
  `str_ltrim` and `str_rtrim`, which the file calls and nothing defines, follow
  the spec's description.
* An argument that may be SQL `NULL` is an `Option`.
* A call that raises a host `ERROR`, or whose C behaviour is undefined, returns
  `Except.error`.
-/

namespace MysqlCompat

/-! ## Machine integers and outcomes -/

/-- Two's-complement reduction of an integer to the `int64` range. -/
def wrap64 (x : Int) : Int := (x + 2 ^ 63) % 2 ^ 64 - 2 ^ 63

/-- Two's-complement reduction of an integer to the `int32` range. -/
def wrap32 (x : Int) : Int := (x + 2 ^ 31) % 2 ^ 32 - 2 ^ 31

/-- Ways in which a call fails to produce a datum. -/
inductive Fault where
  /-- The host raised `ERROR` (for instance a negative length handed to
  `enlargeStringInfo`). -/
  | hostError
  /-- The C code read or wrote outside an allocation, or used memory whose
  content is not determined. -/
  | undefinedBehavior
  deriving DecidableEq, Repr

instance instDecidableEqExcept {ε α : Type} [DecidableEq ε] [DecidableEq α] :
    DecidableEq (Except ε α)
  | .ok a, .ok b => if h : a = b then isTrue (by rw [h]) else isFalse (by intro e; cases e; exact h rfl)
  | .error a, .error b =>
      if h : a = b then isTrue (by rw [h]) else isFalse (by intro e; cases e; exact h rfl)
  | .ok _, .error _ => isFalse (by intro e; cases e)
  | .error _, .ok _ => isFalse (by intro e; cases e)

/-! ## Epoch conversion (sections 12 and 13 of the source) -/

/-- Microseconds per second (`USECS_PER_SEC` of the host's `datatype/timestamp.h`). -/
def USECS_PER_SEC : Int := 1000000

/-- Microseconds per day (`USECS_PER_DAY` of the host's `datatype/timestamp.h`). -/
def USECS_PER_DAY : Int := 86400000000

/-- Julian day number of 2000-01-01 (`POSTGRES_EPOCH_JDATE`). -/
def POSTGRES_EPOCH_JDATE : Int := 2451545

/-- Julian day number of 1970-01-01 (`UNIX_EPOCH_JDATE`). -/
def UNIX_EPOCH_JDATE : Int := 2440588

/-- `mysql_from_unixtime`: `uts * USECS_PER_SEC + (POSTGRES_EPOCH_JDATE -
UNIX_EPOCH_JDATE) * USECS_PER_DAY`, computed in `int64`. -/
def mysql_from_unixtime (uts : Int) : Int :=
  wrap64 (wrap64 (uts * USECS_PER_SEC)
    + wrap64 ((POSTGRES_EPOCH_JDATE - UNIX_EPOCH_JDATE) * USECS_PER_DAY))

/-- `mysql_unix_timestamp`: with no argument the timestamp is the host clock
`GetCurrentTimestamp`, otherwise argument 0; the result is `ts / USECS_PER_SEC`. -/
def mysql_unix_timestamp (GetCurrentTimestamp : Int) (args : List Int) : Int :=
  let ts := match args with
    | [] => GetCurrentTimestamp
    | t :: _ => t
  ts.tdiv USECS_PER_SEC

/-! ## Calendar difference (section 15 of the source) -/

/-- The fields of the host's `struct pg_tm` that the source reads.  As filled by
`timestamp2tm`, `tm_year` is the calendar year and `tm_mon` runs from 1 to 12. -/
structure pg_tm where
  tm_sec : Int
  tm_min : Int
  tm_hour : Int
  tm_mday : Int
  tm_mon : Int
  tm_year : Int
  tm_wday : Int
  deriving DecidableEq, Repr

/-- The host call `timestamp2tm(ts, NULL, &tm, fsec, NULL, NULL)`.  The parameter
`timestamp2tm` gives the breakdown the host computes when `fsec` points to an
object, `none` standing for a nonzero return code (the host's range test comes
before every store).  The host stores the fractional second through `fsec`
without testing the pointer, so with `fsec = NULL` a timestamp in range makes it
write through a null pointer. -/
def timestamp2tm_fsec (timestamp2tm : Int → Option pg_tm) (fsecIsNull : Bool) (ts : Int) :
    Except Fault (Option pg_tm) :=
  match timestamp2tm ts with
  | none => .ok none
  | some tm => if fsecIsNull then .error .undefinedBehavior else .ok (some tm)

/-- The value returned in `case 7`:
`(tb.tm_year - ta.tm_year)*12 + (tb.tm_mon - ta.tm_mon)`, computed in `int`. -/
def monthsBetween (ta tb : pg_tm) : Int :=
  wrap32 (wrap32 (wrap32 (tb.tm_year - ta.tm_year) * 12) + wrap32 (tb.tm_mon - ta.tm_mon))

/-- The value returned in `case 9`: `tb.tm_year - ta.tm_year`, computed in `int`. -/
def yearsBetween (ta tb : pg_tm) : Int :=
  wrap32 (tb.tm_year - ta.tm_year)

/-- The body generated by `MAKE_TIMESTAMPDIFF(name, unitcode)`.  Cases 7 and 9 call
`timestamp2tm(a,NULL,&ta,NULL,NULL,NULL)` and `timestamp2tm(b,NULL,&tb,NULL,NULL,NULL)`,
both with `fsec = NULL`, and do not test the return codes.  The result `none`
means that the call returns no determined value: the host faults on the null
`fsec`, or, after a nonzero return code, the fields read were never written.
The `switch` has no `case 5`. -/
def MAKE_TIMESTAMPDIFF (timestamp2tm : Int → Option pg_tm) (unitcode : Nat)
    (a b : Int) : Option Int :=
  let diff := wrap64 (b - a)
  match unitcode with
  | 1 => some diff
  | 2 => some (diff.tdiv USECS_PER_SEC)
  | 3 => some (diff.tdiv (USECS_PER_SEC * 60))
  | 4 => some (diff.tdiv (USECS_PER_SEC * 3600))
  | 6 => some (diff.tdiv (USECS_PER_SEC * 604800))
  | 7 =>
    match timestamp2tm_fsec timestamp2tm true a, timestamp2tm_fsec timestamp2tm true b with
    | .ok (some ta), .ok (some tb) => some (monthsBetween ta tb)
    | _, _ => none
  | 9 =>
    match timestamp2tm_fsec timestamp2tm true a, timestamp2tm_fsec timestamp2tm true b with
    | .ok (some ta), .ok (some tb) => some (yearsBetween ta tb)
    | _, _ => none
  | _ => some 0

/-- `MAKE_TIMESTAMPDIFF(second,2)`. -/
def timediff_second (timestamp2tm : Int → Option pg_tm) (a b : Int) : Option Int :=
  MAKE_TIMESTAMPDIFF timestamp2tm 2 a b

/-- `MAKE_TIMESTAMPDIFF(minute,3)`. -/
def timediff_minute (timestamp2tm : Int → Option pg_tm) (a b : Int) : Option Int :=
  MAKE_TIMESTAMPDIFF timestamp2tm 3 a b

/-- `MAKE_TIMESTAMPDIFF(hour,4)`. -/
def timediff_hour (timestamp2tm : Int → Option pg_tm) (a b : Int) : Option Int :=
  MAKE_TIMESTAMPDIFF timestamp2tm 4 a b

/-- `MAKE_TIMESTAMPDIFF(day,5)`. -/
def timediff_day (timestamp2tm : Int → Option pg_tm) (a b : Int) : Option Int :=
  MAKE_TIMESTAMPDIFF timestamp2tm 5 a b

/-- `MAKE_TIMESTAMPDIFF(week,6)`. -/
def timediff_week (timestamp2tm : Int → Option pg_tm) (a b : Int) : Option Int :=
  MAKE_TIMESTAMPDIFF timestamp2tm 6 a b

/-- `MAKE_TIMESTAMPDIFF(month,7)`. -/
def timediff_month (timestamp2tm : Int → Option pg_tm) (a b : Int) : Option Int :=
  MAKE_TIMESTAMPDIFF timestamp2tm 7 a b

/-- `MAKE_TIMESTAMPDIFF(year,9)`. -/
def timediff_year (timestamp2tm : Int → Option pg_tm) (a b : Int) : Option Int :=
  MAKE_TIMESTAMPDIFF timestamp2tm 9 a b

/-- The range of years and months that the host's `timestamp2tm` produces. -/
def tmInRange (t : pg_tm) : Prop :=
  -5000 ≤ t.tm_year ∧ t.tm_year ≤ 300000 ∧ 1 ≤ t.tm_mon ∧ t.tm_mon ≤ 12

instance instDecidableTmInRange (t : pg_tm) : Decidable (tmInRange t) := by
  unfold tmInRange; infer_instance

/-- The breakdown of 2024-01-31 00:00:00, a Wednesday. -/
def tmJan31 : pg_tm :=
  { tm_sec := 0, tm_min := 0, tm_hour := 0, tm_mday := 31, tm_mon := 1, tm_year := 2024,
    tm_wday := 3 }

/-- The breakdown of 2024-03-01 00:00:00, a Friday. -/
def tmMar01 : pg_tm :=
  { tm_sec := 0, tm_min := 0, tm_hour := 0, tm_mday := 1, tm_mon := 3, tm_year := 2024,
    tm_wday := 5 }

/-- The breakdown of 2024-03-05 14:30:00, a Tuesday. -/
def tmMar05 : pg_tm :=
  { tm_sec := 0, tm_min := 30, tm_hour := 14, tm_mday := 5, tm_mon := 3, tm_year := 2024,
    tm_wday := 2 }

/-- An excerpt of the host's UTC calendar, as `timestamp2tm` reports it, for the
instants used in the examples: microseconds since 2000-01-01 00:00:00 mapped to
their breakdown.  Day 8796 after 2000-01-01 is 2024-01-31, day 8826 is 2024-03-01,
day 8830 is 2024-03-05. -/
def sampleCalendar (ts : Int) : Option pg_tm :=
  if ts = 8796 * USECS_PER_DAY then some tmJan31
  else if ts = 8826 * USECS_PER_DAY then some tmMar01
  else if ts = 8830 * USECS_PER_DAY + 52200 * USECS_PER_SEC then some tmMar05
  else none

/-! ## C strings and the host's `StringInfo` buffer -/

/-- The terminator of a C string. -/
def NUL : Char := Char.ofNat 0

/-- `text_to_cstring`: a fresh allocation holding the bytes of the text and the
terminator. -/
def text_to_cstring (t : List Char) : List Char := t ++ [NUL]

/-- The C string found at offset `off` of the allocation `mem`: the bytes up to
the first terminator.  Scanning past the end of the allocation is undefined. -/
def cstringAt (mem : List Char) (off : Nat) : Except Fault (List Char) :=
  if NUL ∈ mem.drop off then .ok ((mem.drop off).takeWhile (fun c => c ≠ NUL))
  else .error .undefinedBehavior

/-- `appendBinaryStringInfo(&buf, mem + off, datalen)`: `enlargeStringInfo`
raises `ERROR` for a negative `datalen`; otherwise `datalen` bytes are copied
from `mem + off`, which must lie inside the allocation `mem`. -/
def appendBinaryStringInfo (buf mem : List Char) (off datalen : Int) :
    Except Fault (List Char) :=
  if datalen < 0 then .error .hostError
  else if off < 0 ∨ (mem.length : Int) < off + datalen then .error .undefinedBehavior
  else .ok (buf ++ (mem.drop off.toNat).take datalen.toNat)

/-- `appendStringInfoString(&buf, mem + off)`: appends the C string at `mem + off`. -/
def appendStringInfoString (buf mem : List Char) (off : Nat) : Except Fault (List Char) :=
  match cstringAt mem off with
  | .ok s => .ok (buf ++ s)
  | .error e => .error e

/-- `cstring_to_text(buf.data)`: the bytes of the buffer up to the first
terminator (the buffer itself is always followed by one). -/
def cstring_to_text (buf : List Char) : List Char :=
  buf.takeWhile (fun c => c ≠ NUL)

/-! ## INSERT (section 7 of the source) -/

/-- `mysql_insert(src, pos, len, ins)`.  `pos` and `len` are `int32`; the lengths
handed to `appendBinaryStringInfo` are `int` expressions, the source address of
the last copy is the pointer `s + pos-1 + len`.  The result is
`cstring_to_text_with_len(buf.data, buf.len)`, all bytes of the buffer. -/
def mysql_insert (src : List Char) (pos len : Int) (ins : List Char) :
    Except Fault (List Char) :=
  let srclen : Int := src.length
  let s := text_to_cstring src
  let i := text_to_cstring ins
  match appendBinaryStringInfo [] s 0 (wrap32 (pos - 1)) with
  | .error e => .error e
  | .ok buf1 =>
    match appendStringInfoString buf1 i 0 with
    | .error e => .error e
    | .ok buf2 =>
      appendBinaryStringInfo buf2 s (pos - 1 + len)
        (wrap32 (srclen - wrap32 (wrap32 (pos - 1) + len)))

/-! ## FORMAT (section 10 of the source) -/

/-- `strchr(mem, c)` on the C string at the start of `mem`: the offset of the
first `c` before the terminator, if any. -/
def strchr (mem : List Char) (c : Char) : Option Nat :=
  let s := mem.takeWhile (fun x => x ≠ NUL)
  if c ∈ s then some (s.indexOf c) else none

/-- The largest request the host allocator accepts (`MaxAllocSize`). -/
def MaxAllocSize : Int := 0x3fffffff

/-- The grouping loop `for (i = 0; i < len; i++)` of `mysql_format`, from index `i`
with `n` iterations left: a `','` when `i > 0 && (len - i) % 3 == 0`, then
`str[i]`. -/
def groupFrom (mem : List Char) (len : Nat) : Nat → Nat → List Char
  | 0, _ => []
  | n + 1, i =>
    (if 0 < i ∧ (len - i) % 3 = 0 then [','] else [])
      ++ mem.getD i NUL :: groupFrom mem len n (i + 1)

/-- The tail of `mysql_format` from `int len = ...` on: `mem` is the allocation
`str` points to and `p` the offset of the decimal point, if there is one. -/
def formatTail (mem : List Char) (p : Option Nat) : Except Fault (List Char) :=
  match p with
  | some k =>
    match appendStringInfoString (groupFrom mem k k 0) mem k with
    | .ok buf => .ok (cstring_to_text buf)
    | .error e => .error e
  | none =>
    match cstringAt mem 0 with
    | .ok s => .ok (cstring_to_text (groupFrom mem s.length s.length 0))
    | .error e => .error e

/-- `mysql_format(num, dec)` on `numeric_out`, the decimal text the host prints
for `num`.  Three parameters stand for what the allocator decides when the
fraction is padded: `moved` tells whether `repalloc` returned a new address (then
`p` still points into the released block), and `j0`, `j1` are the two bytes of
the enlarged block that lie behind the area `memset` fills and that nothing has
written when `strlen(tmp)` scans them. -/
def mysql_format (moved : Bool) (j0 j1 : Char) (numeric_out : List Char) (dec : Int) :
    Except Fault (List Char) :=
  let str := text_to_cstring numeric_out
  match strchr str '.' with
  | none => formatTail str none
  | some k =>
    match cstringAt str (k + 1) with
    | .error e => .error e
    | .ok frac =>
      let curr : Int := frac.length
      if curr > dec then
        if (k : Int) + dec + 1 < 0 then .error .undefinedBehavior
        else formatTail (str.set ((k : Int) + dec + 1).toNat NUL) (some k)
      else if curr < dec then
        match cstringAt str 0 with
        | .error e => .error e
        | .ok whole =>
          if MaxAllocSize < (whole.length : Int) + dec - curr + 2 then .error .hostError
          else
            let tmp := whole ++ List.replicate (dec - curr).toNat '0' ++ [j0, j1]
            match cstringAt tmp 0 with
            | .error e => .error e
            | .ok _ => if moved then .error .undefinedBehavior else formatTail tmp (some k)
      else formatTail str (some k)

/-- The spec's grouping, on the digits read from the decimal point leftward: a
`','` after every three digits that are followed by another digit. -/
def specGroupLeftward : List Char → List Char
  | a :: b :: c :: d :: rest => a :: b :: c :: ',' :: specGroupLeftward (d :: rest)
  | xs => xs

/-- The spec's grouping of an integer-digit string: separators are placed by
counting groups of three leftward from the decimal point, so none leads. -/
def specGroupThousands (digits : List Char) : List Char :=
  (specGroupLeftward digits.reverse).reverse

/-- The number of characters of a formatted text after its first `'.'`
(0 when there is none). -/
def fractionDigits (s : List Char) : Nat :=
  (s.dropWhile (fun c => c ≠ '.')).length - 1

/-! ## DATE_FORMAT (section 11 of the source) -/

/-- `printf`'s `%0<width>d`: sign, then the decimal digits zero-padded so that the
whole field has at least `width` characters. -/
def printf_0d (width : Nat) (n : Int) : List Char :=
  let digits := Nat.toDigits 10 n.natAbs
  if n < 0 then '-' :: List.replicate (width - 1 - digits.length) '0' ++ digits
  else List.replicate (width - digits.length) '0' ++ digits

/-- `printf`'s `%d`. -/
def printf_d (n : Int) : List Char := printf_0d 0 n

/-- The `case` labels of the `switch` in `mysql_date_format`, in source order. -/
def caseLabels : List Char :=
  ['Y', 'y', 'm', 'c', 'd', 'H', 'h', 'i', 's', 'p', 'W', '%']

/-- What each statement of the `switch` appends, in source order; the last entry
is the `default` statement, which appends the directive character `c` itself.
`pg_get_day` is the host's table of weekday names. -/
def caseBodies (pg_get_day : Int → List Char) (tm : pg_tm) (c : Char) :
    List (List Char) :=
  [ printf_0d 4 tm.tm_year,
    printf_0d 2 (tm.tm_year.tmod 100),
    printf_0d 2 tm.tm_mon,
    printf_d tm.tm_mon,
    printf_0d 2 tm.tm_mday,
    printf_0d 2 tm.tm_hour,
    printf_0d 2 (if tm.tm_hour.tmod 12 = 0 then 12 else tm.tm_hour.tmod 12),
    printf_0d 2 tm.tm_min,
    printf_0d 2 tm.tm_sec,
    (if tm.tm_hour ≥ 12 then ['P', 'M'] else ['A', 'M']),
    (pg_get_day tm.tm_wday).takeWhile (fun x => x ≠ NUL),
    ['%'],
    [c] ]

/-- The `switch (*p)` of `mysql_date_format`: control enters at the label equal to
`c` (at `default` when there is none) and, no statement being followed by
`break`, runs every statement from there to the end of the `switch`. -/
def switchOutput (pg_get_day : Int → List Char) (tm : pg_tm) (c : Char) : List Char :=
  ((caseBodies pg_get_day tm c).drop (caseLabels.indexOf c)).flatten

/-- The loop `for (char *p = f; *p; p++)` of `mysql_date_format` over the memory
from `p` on.  After a `'%'` the next byte is the directive, also when it is the
terminator; the loop then steps past it, and reading behind the allocation is
undefined. -/
def dateFormatLoop (pg_get_day : Int → List Char) (tm : pg_tm) :
    List Char → Except Fault (List Char)
  | [] => .error .undefinedBehavior
  | [c] => if c = NUL then .ok [] else .error .undefinedBehavior
  | c :: d :: rest =>
    if c = NUL then .ok []
    else if c ≠ '%' then
      match dateFormatLoop pg_get_day tm (d :: rest) with
      | .ok out => .ok (c :: out)
      | .error e => .error e
    else
      match dateFormatLoop pg_get_day tm rest with
      | .ok out => .ok (switchOutput pg_get_day tm d ++ out)
      | .error e => .error e

/-- `mysql_date_format(ts, fmt)`: SQL `NULL` (`none`) when `timestamp2tm` reports
failure, otherwise `cstring_to_text` of the buffer the loop fills. -/
def mysql_date_format (timestamp2tm : Int → Option pg_tm) (pg_get_day : Int → List Char)
    (ts : Int) (fmt : List Char) : Except Fault (Option (List Char)) :=
  match timestamp2tm ts with
  | none => .ok none
  | some tm =>
    match dateFormatLoop pg_get_day tm (text_to_cstring fmt) with
    | .ok buf => .ok (some (cstring_to_text buf))
    | .error e => .error e

/-- The host's English weekday names, indexed by `tm_wday` (0 is Sunday). -/
def dayNames (wday : Int) : List Char :=
  (["Sunday", "Monday", "Tuesday", "Wednesday", "Thursday", "Friday",
    "Saturday"].getD wday.toNat "").toList

/-! ## Null handling and argument lists (sections 1, 3, 4, 8 and 9 of the source)

An argument of a call is an `Option`: `none` is SQL `NULL`.  A variadic call is
the list of its arguments. -/

/-- `mysql_ifnull`: argument 0 when it is not Null, otherwise argument 1 when that
is not Null, otherwise Null. -/
def mysql_ifnull {α : Type} (a b : Option α) : Option α :=
  match a with
  | some x => some x
  | none =>
    match b with
    | some y => some y
    | none => none

/-- The loop of `mysql_concat` over the arguments still to be visited, with the
buffer filled so far: a Null argument ends the call with Null. -/
def mysql_concat_loop : List (Option (List Char)) → List Char → Option (List Char)
  | [], buf => some buf
  | none :: _, _ => none
  | some t :: rest, buf => mysql_concat_loop rest (buf ++ t)

/-- `mysql_concat(v1, ..., vn)`. -/
def mysql_concat (args : List (Option (List Char))) : Option (List Char) :=
  mysql_concat_loop args []

/-- The loop of `mysql_concat_ws` over the arguments from index 1 on, with the
buffer and the flag `first`: Null arguments are skipped, the separator is appended
before every value but the first one kept. -/
def mysql_concat_ws_loop (sep : List Char) :
    List (Option (List Char)) → List Char → Bool → List Char × Bool
  | [], buf, first => (buf, first)
  | none :: rest, buf, first => mysql_concat_ws_loop sep rest buf first
  | some t :: rest, buf, first =>
    mysql_concat_ws_loop sep rest ((if !first then buf ++ sep else buf) ++ t) false

/-- `mysql_concat_ws(sep, v1, ..., vn)` for a non-Null `sep`: Null when `first` is
still set after the loop. -/
def mysql_concat_ws (sep : List Char) (args : List (Option (List Char))) :
    Option (List Char) :=
  match mysql_concat_ws_loop sep args [] true with
  | (buf, first) => if first then none else some buf

/-- The loop `for (i = 1; i < PG_NARGS(); i++)` of `mysql_field` over the arguments
from index `i` on: Null arguments are skipped, the first argument equal to the
needle (`texteq`) ends the call with its index; 0 when the loop ends. -/
def mysql_field_loop (needle : List Char) : List (Option (List Char)) → Nat → Nat
  | [], _ => 0
  | none :: rest, i => mysql_field_loop needle rest (i + 1)
  | some v :: rest, i => if needle = v then i else mysql_field_loop needle rest (i + 1)

/-- `mysql_field(needle, v1, ..., vn)`. -/
def mysql_field (needle : List Char) (args : List (Option (List Char))) : Nat :=
  mysql_field_loop needle args 1

/-- `mysql_elt(n, v1, ..., vk)`: `PG_NARGS()` is `k + 1`, and argument `n` of the
call, for `1 ≤ n ≤ k`, is `vn`. -/
def mysql_elt (n : Int) (vals : List (Option (List Char))) : Option (List Char) :=
  if n < 1 ∨ n ≥ (vals.length : Int) + 1 then none
  else
    match vals.get? (n - 1).toNat with
    | some (some t) => some t
    | _ => none

/-! ## FIND_IN_SET (section 5 of the source) -/

/-- C's `isspace` in the "C" locale: space, `\t`, `\n`, `\v`, `\f`, `\r`. -/
def isspace (c : Char) : Bool :=
  c = ' ' || c = '\t' || c = '\n' || c = Char.ofNat 11 || c = Char.ofNat 12 || c = '\r'

/-- Modelled from the spec: `pg_strtok_r(s, ",", &saveptr)`, which the source
calls and neither the source nor the host defines.  The spec has FIND_IN_SET
"split csv on `,`": each call hands out the next piece of the string, that is the
characters up to the next delimiter (an empty piece when two delimiters are
adjacent), and moves the saved position behind that delimiter; the piece that
ends the string is the last one, and the call after it hands out `NULL`.  The
saved position is `none` once the last piece has been handed out. -/
def pg_strtok_r (delim : Char) (save : Option (List Char)) :
    Option (List Char × Option (List Char)) :=
  match save with
  | none => none
  | some s =>
    some (s.takeWhile (fun x => x != delim),
      match s.dropWhile (fun x => x != delim) with
      | [] => none
      | _ :: r => some r)

/-- Modelled from the spec: `str_trim`, which the source calls but does not
define; it "trims surrounding whitespace" from a token. -/
def str_trim (s : List Char) : List Char :=
  ((s.dropWhile isspace).reverse.dropWhile isspace).reverse

/-- The loop `while (token)` of `mysql_find_in_set`, with `fuel` iterations
allowed: the current token (and the tokenizer's position), and `pos`. -/
def find_in_set_loop (n : List Char) :
    Nat → Option (List Char × Option (List Char)) → Nat → Nat
  | 0, _, _ => 0
  | _ + 1, none, _ => 0
  | fuel + 1, some (token, save), pos =>
    if n = str_trim token then pos
    else find_in_set_loop n fuel (pg_strtok_r ',' save) (pos + 1)

/-- `mysql_find_in_set(needle, haystack)`.  Every token but the last is followed by
a delimiter of the haystack, so `length haystack + 1` iterations are never used
up. -/
def mysql_find_in_set (needle haystack : List Char) : Nat :=
  find_in_set_loop needle (haystack.length + 1) (pg_strtok_r ',' (some haystack)) 1

/-- The pieces of a string between the occurrences of `c` (one more piece than
there are occurrences). -/
def splitOnChar (c : Char) : List Char → List (List Char)
  | [] => [[]]
  | x :: xs =>
    if x = c then [] :: splitOnChar c xs
    else
      match splitOnChar c xs with
      | p :: ps => (x :: p) :: ps
      | [] => [[x]]

/-- The 0-based index of the first element of `l` equal to `a`, if there is one. -/
def firstIndexOf {α : Type} [DecidableEq α] (a : α) : List α → Option Nat
  | [] => none
  | x :: xs => if x = a then some 0 else (firstIndexOf a xs).map (fun i => i + 1)

/-- The 1-based index of the first element of `l` equal to `n`, 0 when there is
none. -/
def specPosition (n : List Char) (l : List (List Char)) : Nat :=
  match firstIndexOf n l with
  | some i => i + 1
  | none => 0

/-- The spec's FIND_IN_SET: every piece between commas is an element, empty pieces
included; each is trimmed, and the result is the position of the first one equal
to the needle. -/
def specFindInSetAllPieces (needle csv : List Char) : Nat :=
  specPosition needle ((splitOnChar ',' csv).map str_trim)

/-! ## TRIM family (section 6 of the source) -/

/-- Modelled from the spec: `str_ltrim(s, c)`, which the source calls but does not
define; it strips the characters of the set `c` from the leading end of `s`,
"stopping at the first character not in the set". -/
def str_ltrim (s c : List Char) : List Char :=
  s.dropWhile (fun x => decide (x ∈ c))

/-- Modelled from the spec: `str_rtrim(s, c)`, which the source calls but does not
define; it strips the characters of the set `c` from the trailing end of `s`,
"stopping at the first character not in the set". -/
def str_rtrim (s c : List Char) : List Char :=
  (s.reverse.dropWhile (fun x => decide (x ∈ c))).reverse

/-- `mysql_trim_family(src, chars, both, leading, trailing)`; `chars` is `none` for
the C `NULL`, which selects the default set `" \t\r\n"`. -/
def mysql_trim_family (src : List Char) (chars : Option (List Char))
    (both leading trailing : Bool) : List Char :=
  let c := match chars with
    | some cs => cs
    | none => [' ', '\t', '\r', '\n']
  let s1 := if leading || both then str_ltrim src c else src
  let s2 := if trailing || both then str_rtrim s1 c else s1
  s2

/-- `mysql_ltrim`: `mysql_trim_family(src, chars, false, true, false)`. -/
def mysql_ltrim (src : List Char) (chars : Option (List Char)) : List Char :=
  mysql_trim_family src chars false true false

/-- `mysql_rtrim`: `mysql_trim_family(src, chars, false, false, true)`. -/
def mysql_rtrim (src : List Char) (chars : Option (List Char)) : List Char :=
  mysql_trim_family src chars false false true

/-! ## INET_ATON (section 14 of the source) -/

/-- The value of a string of decimal digits. -/
def digitsValue (ds : List Char) : Nat :=
  ds.foldl (fun acc c => 10 * acc + (c.toNat - 48)) 0

/-- What a `%u` conversion places in its `unsigned int` for a scanned sign and
magnitude: the number itself when it fits.  For a number that does not fit, the C
standard fixes no value; `stored` stands for what the C library places there. -/
def storeUnsigned (stored : Bool → Nat → Nat) (neg : Bool) (mag : Nat) : Nat :=
  if (!neg || mag == 0) && mag < 2 ^ 32 then mag else stored neg mag % 2 ^ 32

/-- One `%u` directive of `sscanf`: white space is skipped, an optional sign and
then the longest run of digits are consumed; without a digit the directive
fails.  The result is the stored number and the input left. -/
def scan_u (stored : Bool → Nat → Nat) (s : List Char) : Option (Nat × List Char) :=
  let s1 := s.dropWhile isspace
  let neg := s1.head? == some '-'
  let s2 := if s1.head? == some '-' || s1.head? == some '+' then s1.drop 1 else s1
  let ds := s2.takeWhile Char.isDigit
  if ds = [] then none
  else some (storeUnsigned stored neg (digitsValue ds), s2.dropWhile Char.isDigit)

/-- An ordinary character of a `sscanf` format: the next input character must be
that character. -/
def scan_char (c : Char) : List Char → Option (List Char)
  | [] => none
  | x :: r => if x = c then some r else none

/-- `sscanf(s, "%u.%u.%u.%u", &a, &b, &c, &d)`: the four numbers when the return
value is 4, `none` for every other return value.  Input behind the fourth number
is not looked at. -/
def sscanf_u4 (stored : Bool → Nat → Nat) (s : List Char) : Option (Nat × Nat × Nat × Nat) :=
  match scan_u stored s with
  | none => none
  | some (a, r1) =>
    match scan_char '.' r1 with
    | none => none
    | some r2 =>
      match scan_u stored r2 with
      | none => none
      | some (b, r3) =>
        match scan_char '.' r3 with
        | none => none
        | some r4 =>
          match scan_u stored r4 with
          | none => none
          | some (c, r5) =>
            match scan_char '.' r5 with
            | none => none
            | some r6 =>
              match scan_u stored r6 with
              | none => none
              | some (d, _) => some (a, b, c, d)

/-- `mysql_inet_aton(ip)`: Null unless `sscanf` returns 4, otherwise
`((int64)a<<24) | (b<<16) | (c<<8) | d`, where the shifts of `b` and `c` are done in
`unsigned int`. -/
def mysql_inet_aton (stored : Bool → Nat → Nat) (ip : List Char) : Option Int :=
  match sscanf_u4 stored ip with
  | none => none
  | some (a, b, c, d) =>
    some ((((a <<< 24) ||| ((b <<< 16) % 2 ^ 32)) ||| ((c <<< 8) % 2 ^ 32)) ||| d : Nat)

/-- The spec's strict shape: exactly four non-empty strings of digits separated by
three `'.'`. -/
def specIsDottedQuad (s : List Char) : Bool :=
  (splitOnChar '.' s).length == 4
    && (splitOnChar '.' s).all (fun p => p != [] && p.all Char.isDigit)

/-- A number as `%u` accepts it: white space, an optional sign, at least one digit. -/
def SpecScannedNumber (t : List Char) : Prop :=
  ∃ ws sg ds : List Char, t = ws ++ (sg ++ ds) ∧ (∀ c ∈ ws, isspace c = true)
    ∧ (sg = [] ∨ sg = ['+'] ∨ sg = ['-']) ∧ ds ≠ [] ∧ ∀ c ∈ ds, c.isDigit = true

/-- The input begins with four such numbers separated by three `'.'`; what follows
the fourth is arbitrary. -/
def SpecStartsWithQuad (s : List Char) : Prop :=
  ∃ n1 n2 n3 n4 rest : List Char, SpecScannedNumber n1 ∧ SpecScannedNumber n2
    ∧ SpecScannedNumber n3 ∧ SpecScannedNumber n4
    ∧ s = n1 ++ '.' :: (n2 ++ '.' :: (n3 ++ '.' :: (n4 ++ rest)))

/-- The decimal renderings of four numbers joined by `'.'`. -/
def dottedDecimal (a b c d : Nat) : List Char :=
  Nat.toDigits 10 a ++ '.' :: (Nat.toDigits 10 b ++ '.' :: (Nat.toDigits 10 c
    ++ '.' :: Nat.toDigits 10 d))

/-! ## Integer lemmas -/

theorem wrap64_eq_self {x : Int} (h1 : -2 ^ 63 ≤ x) (h2 : x < 2 ^ 63) : wrap64 x = x := by
  unfold wrap64; omega

theorem wrap32_eq_self {x : Int} (h1 : -2 ^ 31 ≤ x) (h2 : x < 2 ^ 31) : wrap32 x = x := by
  unfold wrap32; omega

/-! ## Epoch conversion -/

/-- C1: converting epoch seconds `t` with `mysql_from_unixtime` and back with the
one-argument `mysql_unix_timestamp` does not return `t`: as long as nothing
overflows the result is `t + 946684800`, because only the first function applies the
epoch offset. -/
theorem unix_timestamp_from_unixtime (now t : Int) (h0 : 0 ≤ t)
    (h1 : t * 1000000 + 946684800000000 < 2 ^ 63) :
    mysql_unix_timestamp now [mysql_from_unixtime t] = t + 946684800
      ∧ mysql_unix_timestamp now [mysql_from_unixtime t] ≠ t := by
  have key : mysql_unix_timestamp now [mysql_from_unixtime t] = t + 946684800 := by
    simp only [mysql_unix_timestamp, mysql_from_unixtime, USECS_PER_SEC, USECS_PER_DAY,
      POSTGRES_EPOCH_JDATE, UNIX_EPOCH_JDATE]
    have e1 : wrap64 (t * 1000000) = t * 1000000 := wrap64_eq_self (by omega) (by omega)
    have e2 : wrap64 ((2451545 - 2440588) * 86400000000) = 946684800000000 := by decide
    rw [e1, e2, wrap64_eq_self (by omega) (by omega)]
    have e3 : t * 1000000 + 946684800000000 = (t + 946684800) * 1000000 := by ring
    rw [e3]
    exact Int.mul_tdiv_cancel _ (by decide)
  exact ⟨key, by rw [key]; omega⟩

/-- The round trip of C1 evaluated at the epoch itself, `t = 0`. -/
theorem unix_timestamp_from_unixtime_witness :
    (0 : Int) ≤ 0 ∧ (0 : Int) * 1000000 + 946684800000000 < 2 ^ 63
      ∧ mysql_unix_timestamp 0 [mysql_from_unixtime 0] = 0 + 946684800
      ∧ mysql_unix_timestamp 0 [mysql_from_unixtime 0] ≠ 0 :=
  ⟨by decide, by decide, unix_timestamp_from_unixtime 0 0 (by decide) (by decide)⟩

/-! ## Calendar difference -/

/-- The units second, minute, hour and week divide the wrapped microsecond
difference by their length, truncating toward zero. -/
theorem timediff_fixed_units (timestamp2tm : Int → Option pg_tm) (a b : Int) :
    timediff_second timestamp2tm a b = some ((wrap64 (b - a)).tdiv 1000000)
      ∧ timediff_minute timestamp2tm a b = some ((wrap64 (b - a)).tdiv (60 * 1000000))
      ∧ timediff_hour timestamp2tm a b = some ((wrap64 (b - a)).tdiv (3600 * 1000000))
      ∧ timediff_week timestamp2tm a b = some ((wrap64 (b - a)).tdiv (604800 * 1000000)) :=
  ⟨rfl, rfl, rfl, rfl⟩

/-- C3: `timediff_day` is generated with unit code 5, for which the `switch` has no
case, so it returns 0 for every pair of timestamps; for timestamps one day apart
the quotient by the length of a day is 1. -/
theorem timediff_day_eq_zero (timestamp2tm : Int → Option pg_tm) (a b : Int) :
    timediff_day timestamp2tm a b = some 0
      ∧ timediff_day timestamp2tm 0 86400000000 ≠
          some ((86400000000 - 0 : Int).tdiv (86400 * 1000000)) :=
  ⟨rfl, by
    change (some (0 : Int)) ≠ some ((86400000000 - 0 : Int).tdiv (86400 * 1000000))
    decide⟩

/-- With `fsec = NULL` the host call never hands back a breakdown. -/
theorem timestamp2tm_fsec_null (timestamp2tm : Int → Option pg_tm) (ts : Int) (tm : pg_tm) :
    timestamp2tm_fsec timestamp2tm true ts ≠ .ok (some tm) := by
  unfold timestamp2tm_fsec
  cases timestamp2tm ts <;> simp

/-- The value of `case 7` and of `case 9` on breakdowns whose years and months are
in the host's range: `(ye - ys) * 12 + (me - ms)` and `ye - ys`; the days and the
times of day do not enter. -/
theorem monthsBetween_yearsBetween_fields (ta tb : pg_tm) (hra : tmInRange ta)
    (hrb : tmInRange tb) :
    monthsBetween ta tb = (tb.tm_year - ta.tm_year) * 12 + (tb.tm_mon - ta.tm_mon)
      ∧ yearsBetween ta tb = tb.tm_year - ta.tm_year := by
  obtain ⟨a1, a2, a3, a4⟩ := hra
  obtain ⟨b1, b2, b3, b4⟩ := hrb
  have w1 : wrap32 (tb.tm_year - ta.tm_year) = tb.tm_year - ta.tm_year :=
    wrap32_eq_self (by omega) (by omega)
  have w2 : wrap32 ((tb.tm_year - ta.tm_year) * 12) = (tb.tm_year - ta.tm_year) * 12 :=
    wrap32_eq_self (by omega) (by omega)
  have w3 : wrap32 (tb.tm_mon - ta.tm_mon) = tb.tm_mon - ta.tm_mon :=
    wrap32_eq_self (by omega) (by omega)
  have w4 : wrap32 ((tb.tm_year - ta.tm_year) * 12 + (tb.tm_mon - ta.tm_mon))
      = (tb.tm_year - ta.tm_year) * 12 + (tb.tm_mon - ta.tm_mon) :=
    wrap32_eq_self (by omega) (by omega)
  exact ⟨by simp only [monthsBetween, w1, w2, w3, w4], by simp only [yearsBetween, w1]⟩

/-- C5: `timediff_month` and `timediff_year` do not return the calendar-field
differences: they hand the host `fsec = NULL`, unlike `mysql_date_format`, so for
every pair of timestamps the call returns no value.  From 2024-01-31 to
2024-03-05 14:30:00 the claimed results would be `(2024-2024)*12 + (3-1)` and
`2024 - 2024`. -/
theorem timediff_month_year_no_value (timestamp2tm : Int → Option pg_tm) (a b : Int) :
    timediff_month timestamp2tm a b = none
      ∧ timediff_year timestamp2tm a b = none
      ∧ timediff_month sampleCalendar (8796 * USECS_PER_DAY)
          (8830 * USECS_PER_DAY + 52200 * USECS_PER_SEC) ≠ some ((2024 - 2024) * 12 + (3 - 1))
      ∧ timediff_year sampleCalendar (8796 * USECS_PER_DAY)
          (8830 * USECS_PER_DAY + 52200 * USECS_PER_SEC) ≠ some (2024 - 2024) := by
  refine ⟨?_, ?_, by decide, by decide⟩
  · simp only [timediff_month, MAKE_TIMESTAMPDIFF, timestamp2tm_fsec]
    cases timestamp2tm a <;> cases timestamp2tm b <;> simp
  · simp only [timediff_year, MAKE_TIMESTAMPDIFF, timestamp2tm_fsec]
    cases timestamp2tm a <;> cases timestamp2tm b <;> simp

/-! ## DATE_FORMAT -/

/-- Entering the `switch` at `case 'Y'` runs every statement down to `default`. -/
theorem switchOutput_Y (pg_get_day : Int → List Char) (tm : pg_tm) :
    switchOutput pg_get_day tm 'Y'
      = printf_0d 4 tm.tm_year ++ (printf_0d 2 (tm.tm_year.tmod 100)
        ++ (printf_0d 2 tm.tm_mon ++ (printf_d tm.tm_mon ++ (printf_0d 2 tm.tm_mday
        ++ (printf_0d 2 tm.tm_hour
        ++ (printf_0d 2 (if tm.tm_hour.tmod 12 = 0 then 12 else tm.tm_hour.tmod 12)
        ++ (printf_0d 2 tm.tm_min ++ (printf_0d 2 tm.tm_sec
        ++ ((if tm.tm_hour ≥ 12 then ['P', 'M'] else ['A', 'M'])
        ++ ((pg_get_day tm.tm_wday).takeWhile (fun x => x ≠ NUL)
        ++ (['%'] ++ (['Y'] ++ [])))))))))))) :=
  rfl

/-- C2: for the timestamp 2024-03-05 14:30:00 and the pattern `%Y-%m-%d %H:%i:%s`
the code does not return `2024-03-05 14:30:00`: no `case` of the `switch` ends in
`break`, so each directive also appends the renderings of all the directives
listed after it, a `'%'` and its own letter. -/
theorem date_format_iso_pattern :
    mysql_date_format sampleCalendar dayNames
        (8830 * USECS_PER_DAY + 52200 * USECS_PER_SEC) "%Y-%m-%d %H:%i:%s".toList
      = .ok (some ("2024240330514023000PMTuesday%Y-0330514023000PMTuesday%m-"
          ++ "0514023000PMTuesday%d 14023000PMTuesday%H:3000PMTuesday%i:"
          ++ "00PMTuesday%s").toList)
    ∧ mysql_date_format sampleCalendar dayNames
        (8830 * USECS_PER_DAY + 52200 * USECS_PER_SEC) "%Y-%m-%d %H:%i:%s".toList
      ≠ .ok (some "2024-03-05 14:30:00".toList) := by
  decide

/-! ## C strings -/

theorem takeWhile_ne_NUL (t rest : List Char) (h : NUL ∉ t) :
    (t ++ NUL :: rest).takeWhile (fun c => c ≠ NUL) = t := by
  induction t with
  | nil => simp
  | cons a t ih =>
    simp only [List.mem_cons, not_or] at h
    have ha : a ≠ NUL := fun e => h.1 e.symm
    rw [List.cons_append, List.takeWhile_cons_of_pos (by simpa using ha), ih h.2]

theorem cstringAt_append (pre t rest : List Char) (h : NUL ∉ t) :
    cstringAt (pre ++ t ++ NUL :: rest) pre.length = .ok t := by
  unfold cstringAt
  have hd : (pre ++ t ++ NUL :: rest).drop pre.length = t ++ NUL :: rest := by
    rw [List.append_assoc, List.drop_left]
  rw [hd, takeWhile_ne_NUL t rest h]
  simp

theorem cstringAt_text (t : List Char) (h : NUL ∉ t) :
    cstringAt (text_to_cstring t) 0 = .ok t := by
  have := cstringAt_append [] t [] h
  simpa [text_to_cstring] using this

theorem cstring_to_text_eq_self (t : List Char) (h : NUL ∉ t) : cstring_to_text t = t := by
  unfold cstring_to_text
  rw [List.takeWhile_eq_self_iff]
  intro x hx
  have : x ≠ NUL := fun e => h (e ▸ hx)
  simpa using this

theorem appendBinaryStringInfo_ok (buf mem : List Char) (off n : Int)
    (h0 : 0 ≤ off) (h1 : 0 ≤ n) (h : off + n ≤ mem.length) :
    appendBinaryStringInfo buf mem off n
      = .ok (buf ++ (mem.drop off.toNat).take n.toNat) := by
  unfold appendBinaryStringInfo
  have h1 : ¬ (n < 0) := by omega
  have h2 : ¬ (off < 0 ∨ (mem.length : Int) < off + n) := by omega
  simp only [h1, h2, if_false]

theorem appendBinaryStringInfo_neg (buf mem : List Char) (off n : Int) (h : n < 0) :
    appendBinaryStringInfo buf mem off n = .error .hostError := by
  unfold appendBinaryStringInfo
  rw [if_pos h]

theorem appendBinaryStringInfo_length (buf mem r : List Char) (off n : Int)
    (h : appendBinaryStringInfo buf mem off n = .ok r) :
    0 ≤ n ∧ 0 ≤ off ∧ off + n ≤ mem.length ∧ (r.length : Int) = buf.length + n := by
  unfold appendBinaryStringInfo at h
  split_ifs at h with h1 h2
  have e : r = buf ++ (mem.drop off.toNat).take n.toNat := by
    injection h with h; exact h.symm
  refine ⟨by omega, by omega, by omega, ?_⟩
  rw [e]
  simp only [List.length_append, List.length_take, List.length_drop]
  omega

theorem appendStringInfoString_text (buf t : List Char) :
    appendStringInfoString buf (text_to_cstring t) 0 = .ok (buf ++ cstring_to_text t) := by
  have h : (t ++ [NUL]).takeWhile (fun c => c ≠ NUL) = t.takeWhile (fun c => c ≠ NUL) := by
    induction t with
    | nil => simp [List.takeWhile]
    | cons a t ih =>
      by_cases ha : a = NUL
      · simp [List.takeWhile, ha]
      · rw [List.cons_append, List.takeWhile_cons_of_pos (by simpa using ha),
          List.takeWhile_cons_of_pos (by simpa using ha), ih]
  unfold appendStringInfoString cstringAt text_to_cstring cstring_to_text
  simp only [List.drop_zero, h]
  rw [if_pos (by simp)]

/-! ## INSERT -/

theorem mysql_insert_spliced (str newstr : List Char) (pos len : Int)
    (hpos : 1 ≤ pos) (hlen : 0 ≤ len) (hspan : pos - 1 + len ≤ str.length)
    (hsize : (str.length : Int) < 2 ^ 31) (hnul : NUL ∉ newstr) :
    mysql_insert str pos len newstr
      = .ok (str.take (pos - 1).toNat ++ newstr ++ str.drop (pos - 1 + len).toNat) := by
  have w1 : wrap32 (pos - 1) = pos - 1 := wrap32_eq_self (by omega) (by omega)
  have w2 : wrap32 (pos - 1 + len) = pos - 1 + len := wrap32_eq_self (by omega) (by omega)
  have w3 : wrap32 ((str.length : Int) - (pos - 1 + len)) = str.length - (pos - 1 + len) :=
    wrap32_eq_self (by omega) (by omega)
  have l1 : ((text_to_cstring str).length : Int) = str.length + 1 := by
    simp [text_to_cstring]
  unfold mysql_insert
  simp only [w1, w2, w3]
  rw [appendBinaryStringInfo_ok [] _ 0 (pos - 1) (by omega) (by omega) (by omega)]
  simp only [appendStringInfoString, cstringAt_text newstr hnul]
  rw [appendBinaryStringInfo_ok _ _ (pos - 1 + len) _ (by omega) (by omega) (by omega)]
  congr 1
  simp only [text_to_cstring, Int.toNat_zero, List.drop_zero, List.nil_append]
  rw [List.take_append_of_le_length (by omega), List.drop_append_of_le_length (by omega),
    List.take_left' (by simp; omega)]

/-- C6: for `1 ≤ pos`, `0 ≤ len` and `pos - 1 + len ≤ length str` (a text whose
length fits `int srclen`, and a `newstr` that, as every text, holds no NUL),
`mysql_insert` returns the first `pos - 1` bytes of `str`, then `newstr`, then the
bytes of `str` from offset `pos - 1 + len` on; the result has length
`length str - len + length newstr`; and `INSERT("Hello World", 1, 5, "Goodbye")`
is `"Goodbye World"`. -/
theorem mysql_insert_in_range (str newstr : List Char) (pos len : Int)
    (hpos : 1 ≤ pos) (hlen : 0 ≤ len) (hspan : pos - 1 + len ≤ str.length)
    (hsize : (str.length : Int) < 2 ^ 31) (hnul : NUL ∉ newstr) :
    mysql_insert str pos len newstr
        = .ok (str.take (pos - 1).toNat ++ newstr ++ str.drop (pos - 1 + len).toNat)
      ∧ ((str.take (pos - 1).toNat ++ newstr ++ str.drop (pos - 1 + len).toNat).length : Int)
        = str.length - len + newstr.length
      ∧ mysql_insert "Hello World".toList 1 5 "Goodbye".toList
        = .ok "Goodbye World".toList := by
  refine ⟨mysql_insert_spliced str newstr pos len hpos hlen hspan hsize hnul, ?_, by decide⟩
  simp only [List.length_append, List.length_take, List.length_drop]
  omega

/-- C6 at `INSERT("Hello World", 1, 5, "Goodbye")`. -/
theorem mysql_insert_in_range_witness :
    mysql_insert "Hello World".toList 1 5 "Goodbye".toList
      = .ok ("Hello World".toList.take (1 - 1 : Int).toNat ++ "Goodbye".toList
          ++ "Hello World".toList.drop (1 - 1 + 5 : Int).toNat) :=
  (mysql_insert_in_range "Hello World".toList "Goodbye".toList 1 5 (by decide) (by decide)
    (by decide) (by decide) (by decide)).1

/-- C7: for an `int32` `pos` outside `[1, length str + 1]` the code never returns
`str` unchanged, whatever `len` and `newstr` are: it has no test of `pos`, so the
first copy is handed a negative length or reads past the allocation, or the result
is longer than `str`. -/
theorem mysql_insert_pos_out_of_range (str newstr : List Char) (pos len : Int)
    (hmin : -2 ^ 31 ≤ pos) (hmax : pos < 2 ^ 31) (hsize : (str.length : Int) < 2 ^ 30)
    (hout : pos < 1 ∨ (str.length : Int) + 1 < pos) :
    mysql_insert str pos len newstr ≠ .ok str := by
  intro h
  have l1 : ((text_to_cstring str).length : Int) = str.length + 1 := by
    simp [text_to_cstring]
  unfold mysql_insert at h
  simp only [appendStringInfoString_text] at h
  cases h1 : appendBinaryStringInfo [] (text_to_cstring str) 0 (wrap32 (pos - 1)) with
  | error e => rw [h1] at h; simp at h
  | ok buf1 =>
    rw [h1] at h
    simp only [] at h
    obtain ⟨a1, -, a3, a4⟩ := appendBinaryStringInfo_length _ _ _ _ _ h1
    obtain ⟨b1, -, -, b4⟩ := appendBinaryStringInfo_length _ _ _ _ _ h
    have hw : wrap32 (pos - 1) = (str.length : Int) + 1 := by
      unfold wrap32 at a1 a3 ⊢; omega
    simp only [List.length_append, List.length_nil, Nat.cast_add, Nat.cast_zero] at a4 b4
    omega

/-- C7 at `INSERT("Hello", 10, 1, "X")`, a `pos` beyond the string. -/
theorem mysql_insert_pos_out_of_range_witness :
    mysql_insert "Hello".toList 10 1 "X".toList ≠ .ok "Hello".toList :=
  mysql_insert_pos_out_of_range "Hello".toList "X".toList 10 1 (by decide) (by decide)
    (by decide) (by decide)

/-- What the code does at three out-of-range positions: a read past the
allocation, a negative length, and a result that contains the terminator. -/
theorem mysql_insert_out_of_range_samples :
    mysql_insert "Hello".toList 10 1 "X".toList = .error .undefinedBehavior
      ∧ mysql_insert "Hello".toList 0 1 "X".toList = .error .hostError
      ∧ mysql_insert "Hello".toList 7 (-1) "X".toList
        = .ok ("Hello".toList ++ NUL :: "X".toList) := by
  decide

/-- C8: for `pos` in `[1, length str + 1]` and an `int32` `len` with
`pos - 1 + len > length str` the span is not clamped: the tail length
`srclen - (pos-1 + len)` handed to the last `appendBinaryStringInfo` is negative and
the call ends in the host's `ERROR` instead of returning a text. -/
theorem mysql_insert_span_past_end (str newstr : List Char) (pos len : Int)
    (hpos : 1 ≤ pos) (hpos2 : pos ≤ str.length + 1) (hspan : str.length < pos - 1 + len)
    (hlen : len < 2 ^ 31) (hsize : (str.length : Int) < 2 ^ 30) :
    wrap32 (str.length - wrap32 (wrap32 (pos - 1) + len)) < 0
      ∧ mysql_insert str pos len newstr = .error .hostError := by
  have w1 : wrap32 (pos - 1) = pos - 1 := wrap32_eq_self (by omega) (by omega)
  have hneg : wrap32 (str.length - wrap32 (wrap32 (pos - 1) + len)) < 0 := by
    rw [w1]; unfold wrap32; omega
  refine ⟨hneg, ?_⟩
  have l1 : ((text_to_cstring str).length : Int) = str.length + 1 := by
    simp [text_to_cstring]
  unfold mysql_insert
  simp only []
  rw [w1, appendBinaryStringInfo_ok [] _ 0 (pos - 1) (by omega) (by omega) (by omega)]
  simp only [appendStringInfoString_text]
  rw [← w1]
  exact appendBinaryStringInfo_neg _ _ _ _ hneg

/-- C8 at `INSERT("Hello", 3, 10, "X")`: the tail length is negative and the call
fails. -/
theorem mysql_insert_span_past_end_witness :
    wrap32 (("Hello".toList.length : Int) - wrap32 (wrap32 (3 - 1) + 10)) < 0
      ∧ mysql_insert "Hello".toList 3 10 "X".toList = .error .hostError :=
  mysql_insert_span_past_end "Hello".toList "X".toList 3 10 (by decide) (by decide)
    (by decide) (by decide) (by decide)

/-! ## Grouping -/

theorem specGroupLeftward_concat (ys : List Char) (x : Char) :
    specGroupLeftward (ys ++ [x])
      = specGroupLeftward ys ++ (if ys ≠ [] ∧ ys.length % 3 = 0 then [',', x] else [x]) := by
  induction ys using specGroupLeftward.induct with
  | case1 a b c d rest ih =>
    have h3 : (a :: b :: c :: d :: rest).length % 3 = (d :: rest).length % 3 := by
      simp only [List.length_cons]; omega
    have e : a :: b :: c :: d :: rest ++ [x] = a :: b :: c :: d :: (rest ++ [x]) := rfl
    rw [e, specGroupLeftward, specGroupLeftward, ← List.cons_append, ih, h3]
    simp
  | case2 xs hx =>
    match xs, hx with
    | [], _ => simp [specGroupLeftward]
    | [a], _ => simp [specGroupLeftward]
    | [a, b], _ => simp [specGroupLeftward]
    | [a, b, c], _ => simp [specGroupLeftward]
    | a :: b :: c :: d :: rest, hx => exact absurd rfl (hx a b c d rest)

theorem specGroupThousands_cons (x : Char) (xs : List Char) :
    specGroupThousands (x :: xs)
      = (if xs ≠ [] ∧ xs.length % 3 = 0 then [x, ','] else [x]) ++ specGroupThousands xs := by
  unfold specGroupThousands
  rw [List.reverse_cons, specGroupLeftward_concat, List.reverse_append]
  by_cases h : xs ≠ [] ∧ xs.length % 3 = 0
  · have h2 : xs.reverse ≠ [] ∧ xs.reverse.length % 3 = 0 := by simpa using h
    rw [if_pos h, if_pos h2]; rfl
  · have h2 : ¬ (xs.reverse ≠ [] ∧ xs.reverse.length % 3 = 0) := by simpa using h
    rw [if_neg h, if_neg h2]; rfl

theorem groupFrom_eq (xs : List Char) : ∀ (pre rest : List Char),
    groupFrom (pre ++ xs ++ rest) (pre.length + xs.length) xs.length pre.length
      = (if pre ≠ [] ∧ xs ≠ [] ∧ xs.length % 3 = 0 then [','] else []) ++ specGroupThousands xs := by
  induction xs with
  | nil => intro pre rest; simp [groupFrom, specGroupThousands, specGroupLeftward]
  | cons x xs ih =>
    intro pre rest
    have hmem : pre ++ x :: xs ++ rest = (pre ++ [x]) ++ xs ++ rest := by simp
    have hlen : pre.length + (xs.length + 1) = (pre ++ [x]).length + xs.length := by
      simp; omega
    have hget : (pre ++ x :: xs ++ rest).getD pre.length NUL = x := by
      rw [List.append_assoc, List.getD_eq_getElem?_getD,
        List.getElem?_append_right (le_refl _)]
      simp
    have hsub : pre.length + (xs.length + 1) - pre.length = xs.length + 1 := by omega
    have hi : pre.length + 1 = (pre ++ [x]).length := by simp
    rw [List.length_cons, groupFrom, hget, hsub, specGroupThousands_cons, hmem, hlen, hi, ih]
    have hp : 0 < pre.length ↔ pre ≠ [] := List.length_pos
    by_cases h1 : pre ≠ [] ∧ (xs.length + 1) % 3 = 0 <;>
      by_cases h2 : xs ≠ [] ∧ xs.length % 3 = 0 <;> simp [hp, h1, h2]

theorem mem_specGroupThousands (c : Char) (xs : List Char) (h : c ∈ specGroupThousands xs) :
    c = ',' ∨ c ∈ xs := by
  induction xs with
  | nil => simp [specGroupThousands, specGroupLeftward] at h
  | cons x xs ih =>
    rw [specGroupThousands_cons] at h
    rcases List.mem_append.1 h with h1 | h1
    · have h2 : c = x ∨ c = ',' := by
        split_ifs at h1
        · simpa using h1
        · exact Or.inl (by simpa using h1)
      rcases h2 with h2 | h2
      · exact Or.inr (by simp [h2])
      · exact Or.inl h2
    · rcases ih h1 with h2 | h2
      · exact Or.inl h2
      · exact Or.inr (List.mem_cons_of_mem _ h2)

theorem formatTail_point (I F rest : List Char) (hI : NUL ∉ I) (hF : NUL ∉ F) :
    formatTail (I ++ '.' :: F ++ NUL :: rest) (some I.length)
      = .ok (specGroupThousands I ++ '.' :: F) := by
  have hg := groupFrom_eq I [] ('.' :: F ++ NUL :: rest)
  simp only [List.nil_append, List.length_nil, Nat.zero_add, ne_eq, not_true_eq_false,
    false_and, if_false] at hg
  have hc : cstringAt (I ++ '.' :: F ++ NUL :: rest) I.length = .ok ('.' :: F) := by
    have := cstringAt_append I ('.' :: F) rest (by
      simp only [List.mem_cons, not_or]; exact ⟨by decide, hF⟩)
    simpa using this
  have hn : NUL ∉ specGroupThousands I ++ '.' :: F := by
    intro hm
    rcases List.mem_append.1 hm with h1 | h1
    · rcases mem_specGroupThousands _ _ h1 with h2 | h2
      · exact absurd h2 (by decide)
      · exact hI h2
    · rcases List.mem_cons.1 h1 with h2 | h2
      · exact absurd h2 (by decide)
      · exact hF h2
  have hmem : I ++ '.' :: F ++ NUL :: rest = I ++ ('.' :: F ++ NUL :: rest) := by simp
  unfold formatTail
  simp only [appendStringInfoString, hc]
  rw [hmem, hg, cstring_to_text_eq_self _ hn]

theorem isDigit_ne (c : Char) (h : c.isDigit = true) : c ≠ NUL ∧ c ≠ '.' := by
  constructor <;> (rintro rfl; exact absurd h (by decide))

theorem not_mem_of_digits (l : List Char) (h : ∀ c ∈ l, c.isDigit = true) :
    NUL ∉ l ∧ '.' ∉ l :=
  ⟨fun hm => (isDigit_ne _ (h _ hm)).1 rfl, fun hm => (isDigit_ne _ (h _ hm)).2 rfl⟩

theorem strchr_point (I F : List Char) (hIn : NUL ∉ I) (hId : '.' ∉ I) (hFn : NUL ∉ F) :
    strchr (text_to_cstring (I ++ '.' :: F)) '.' = some I.length := by
  have hn : NUL ∉ I ++ '.' :: F := by
    simp only [List.mem_append, List.mem_cons, not_or]
    exact ⟨hIn, by decide, hFn⟩
  unfold strchr text_to_cstring
  simp only [takeWhile_ne_NUL _ [] hn]
  rw [if_pos (by simp), List.indexOf_append_of_not_mem hId]
  simp

theorem mysql_format_point (moved : Bool) (j0 j1 : Char) (I F : List Char) (d : Nat)
    (hI : ∀ c ∈ I, c.isDigit = true) (hF : ∀ c ∈ F, c.isDigit = true)
    (hFd : d ≤ F.length) :
    mysql_format moved j0 j1 (I ++ '.' :: F) d
      = .ok (specGroupThousands I ++ '.' :: F.take d) := by
  obtain ⟨hIn, hId⟩ := not_mem_of_digits I hI
  obtain ⟨hFn, -⟩ := not_mem_of_digits F hF
  have hTn : NUL ∉ F.take d := fun hm => hFn (List.mem_of_mem_take hm)
  have hc : cstringAt (text_to_cstring (I ++ '.' :: F)) (I.length + 1) = .ok F := by
    have := cstringAt_append (I ++ ['.']) F [] hFn
    simpa [text_to_cstring] using this
  unfold mysql_format
  simp only [strchr_point I F hIn hId hFn, hc]
  by_cases hlt : (F.length : Int) > d
  · have hlt2 : d < F.length := by omega
    have hidx : ((I.length : Int) + d + 1).toNat = (I ++ '.' :: F.take d).length := by
      simp [List.length_take, Nat.min_eq_left hFd]; omega
    have hsplit : text_to_cstring (I ++ '.' :: F)
        = (I ++ '.' :: F.take d) ++ (F[d] :: (F.drop (d + 1) ++ [NUL])) := by
      have := List.take_append_drop d F
      rw [List.drop_eq_getElem_cons hlt2] at this
      simp only [text_to_cstring, List.append_assoc, List.cons_append]
      nth_rewrite 1 [← this]
      simp only [List.append_assoc, List.cons_append]
    rw [if_pos hlt, if_neg (by omega), hidx, hsplit,
      List.set_append_right _ _ (le_refl _), Nat.sub_self, List.set_cons_zero]
    have := formatTail_point I (F.take d) (F.drop (d + 1) ++ [NUL]) hIn hTn
    simpa using this
  · have hlt2 : ¬ ((F.length : Int) < d) := by omega
    have hd : d = F.length := by omega
    rw [if_neg hlt, if_neg hlt2, hd, List.take_length]
    have := formatTail_point I F [] hIn hFn
    simpa [text_to_cstring] using this


/-- C9: for a number whose decimal text is a string of digits without a decimal
point the code adds no fraction at all, whatever `decimals` is: the result is the
grouped digits, with no digit after a decimal point, so for `decimals ≥ 1` it does
not have `decimals` fractional digits. -/
theorem mysql_format_integer (moved : Bool) (j0 j1 : Char) (I : List Char) (d : Int)
    (hI : ∀ c ∈ I, c.isDigit = true) :
    mysql_format moved j0 j1 I d = .ok (specGroupThousands I)
      ∧ fractionDigits (specGroupThousands I) = 0 := by
  obtain ⟨hIn, hId⟩ := not_mem_of_digits I hI
  have hs : strchr (text_to_cstring I) '.' = none := by
    unfold strchr text_to_cstring
    simp only [takeWhile_ne_NUL I [] hIn]
    rw [if_neg hId]
  have hg := groupFrom_eq I [] [NUL]
  simp only [List.nil_append, List.length_nil, Nat.zero_add, ne_eq, not_true_eq_false,
    false_and, if_false] at hg
  have hn : NUL ∉ specGroupThousands I := by
    intro hm
    rcases mem_specGroupThousands _ _ hm with h2 | h2
    · exact absurd h2 (by decide)
    · exact hIn h2
  have hp : '.' ∉ specGroupThousands I := by
    intro hm
    rcases mem_specGroupThousands _ _ hm with h2 | h2
    · exact absurd h2 (by decide)
    · exact hId h2
  constructor
  · unfold mysql_format
    simp only [hs]
    unfold formatTail
    simp only [cstringAt_text I hIn]
    unfold text_to_cstring
    rw [hg, cstring_to_text_eq_self _ hn]
  · unfold fractionDigits
    have : (specGroupThousands I).dropWhile (fun c => c ≠ '.') = [] := by
      rw [List.dropWhile_eq_nil_iff]
      intro x hx
      have : x ≠ '.' := fun e => hp (e ▸ hx)
      simpa using this
    rw [this]
    rfl

/-- C9 at `FORMAT(1234, 2)`: the result is `"1,234"`, not `"1,234.00"`. -/
theorem mysql_format_integer_witness :
    mysql_format false NUL NUL "1234".toList 2 = .ok "1,234".toList
      ∧ fractionDigits "1,234".toList = 0 :=
  mysql_format_integer false NUL NUL "1234".toList 2 (by decide)

/-- Padding a fraction: the outcome depends on the bytes behind the padded area
and on whether the block was moved. -/
theorem mysql_format_padding_samples :
    mysql_format false NUL 'x' "1234.5".toList 3 = .ok "1,234.500".toList
      ∧ mysql_format false 'x' NUL "1234.5".toList 3 = .ok "1,234.500x".toList
      ∧ mysql_format false 'x' 'y' "1234.5".toList 3 = .error .undefinedBehavior
      ∧ mysql_format true NUL NUL "1234.5".toList 3 = .error .undefinedBehavior := by
  decide

/-- C10: when the decimal text is a digit string `I`, a `'.'` and a digit string
`F` with at least `d` digits (any `d`, in particular `d ≥ 1`), `mysql_format` returns `I` grouped in threes from the
decimal point leftward, then `'.'` and the first `d` digits of `F`;
`FORMAT(1234567.891, 2)` is `"1,234,567.89"`. -/
theorem mysql_format_truncates (moved : Bool) (j0 j1 : Char) (I F : List Char) (d : Nat)
    (hI : ∀ c ∈ I, c.isDigit = true) (hF : ∀ c ∈ F, c.isDigit = true)
    (hFd : d ≤ F.length) :
    mysql_format moved j0 j1 (I ++ '.' :: F) d
        = .ok (specGroupThousands I ++ '.' :: F.take d)
      ∧ mysql_format moved j0 j1 "1234567.891".toList 2 = .ok "1,234,567.89".toList :=
  ⟨mysql_format_point moved j0 j1 I F d hI hF hFd,
    mysql_format_point moved j0 j1 "1234567".toList "891".toList 2 (by decide) (by decide)
      (by decide)⟩

/-- C10 at the digits of `1234567.891` with two decimals. -/
theorem mysql_format_truncates_witness :
    mysql_format false NUL NUL ("1234567".toList ++ '.' :: "891".toList) (2 : Nat)
      = .ok (specGroupThousands "1234567".toList ++ '.' :: "891".toList.take 2) :=
  (mysql_format_truncates false NUL NUL "1234567".toList "891".toList 2 (by decide)
    (by decide) (by decide)).1

/-! ## IFNULL, CONCAT, CONCAT_WS, FIELD, ELT -/

/-- C18: `IFNULL(a, b)` is `a` when `a` is not Null and `b` otherwise, so it is Null
exactly when both are Null. -/
theorem mysql_ifnull_spec {α : Type} :
    (∀ (x : α) (b : Option α), mysql_ifnull (some x) b = some x)
      ∧ (∀ b : Option α, mysql_ifnull none b = b)
      ∧ (∀ a b : Option α, mysql_ifnull a b = none ↔ a = none ∧ b = none) := by
  refine ⟨fun _ _ => rfl, fun b => by cases b <;> rfl, fun a b => ?_⟩
  cases a <;> cases b <;> simp [mysql_ifnull]

theorem mysql_concat_loop_none (args : List (Option (List Char))) :
    ∀ buf, mysql_concat_loop args buf = none ↔ none ∈ args := by
  induction args with
  | nil => intro buf; simp [mysql_concat_loop]
  | cons a rest ih =>
    intro buf
    cases a with
    | none => simp [mysql_concat_loop]
    | some t => simp [mysql_concat_loop, ih]

theorem mysql_concat_loop_some (ts : List (List Char)) :
    ∀ buf, mysql_concat_loop (ts.map some) buf = some (buf ++ ts.flatten) := by
  induction ts with
  | nil => intro buf; simp [mysql_concat_loop]
  | cons t rest ih => intro buf; simp [mysql_concat_loop, ih]

/-- C14: `CONCAT` returns Null if and only if some argument is Null; when none is,
it returns the texts joined in order with no separator; `CONCAT("x", Null)` is
Null. -/
theorem mysql_concat_spec :
    (∀ args : List (Option (List Char)), mysql_concat args = none ↔ none ∈ args)
      ∧ (∀ ts : List (List Char), mysql_concat (ts.map some) = some ts.flatten)
      ∧ mysql_concat [some "x".toList, none] = none := by
  refine ⟨fun args => mysql_concat_loop_none args [], fun ts => ?_, by decide⟩
  simpa [mysql_concat] using mysql_concat_loop_some ts []

theorem mysql_concat_ws_loop_spec (sep : List Char) (args : List (Option (List Char))) :
    ∀ (buf : List Char) (first : Bool),
      mysql_concat_ws_loop sep args buf first
        = (if args.reduceOption = [] then (buf, first)
           else ((if first then buf else buf ++ sep)
                  ++ sep.intercalate args.reduceOption, false)) := by
  induction args with
  | nil => intro buf first; simp [mysql_concat_ws_loop]
  | cons a rest ih =>
    intro buf first
    cases a with
    | none => simp [mysql_concat_ws_loop, ih, List.reduceOption_cons_of_none]
    | some t =>
      rw [mysql_concat_ws_loop, ih, List.reduceOption_cons_of_some]
      by_cases hr : rest.reduceOption = []
      · cases first <;> simp [hr, List.intercalate]
      · obtain ⟨u, us, hu⟩ := List.exists_cons_of_ne_nil hr
        cases first <;> simp [hu, List.intercalate, List.intersperse]

theorem reduceOption_eq_nil_iff (args : List (Option (List Char))) :
    args.reduceOption = [] ↔ ∀ v ∈ args, v = none := by
  induction args with
  | nil => simp
  | cons a rest ih =>
    cases a with
    | none => simp [List.reduceOption_cons_of_none, ih]
    | some t => simp [List.reduceOption_cons_of_some]

/-- C15: for a non-Null separator, `CONCAT_WS` returns Null when no value is
non-Null, and otherwise the non-Null values in their order with the separator
between consecutive ones (so it occurs as a joiner one time less than there are
values, and neither before the first nor after the last);
`CONCAT_WS(",", "x", Null, "y")` is `"x,y"`. -/
theorem mysql_concat_ws_spec (sep : List Char) (args : List (Option (List Char))) :
    mysql_concat_ws sep args
        = (if args.reduceOption = [] then none
           else some (sep.intercalate args.reduceOption))
      ∧ (mysql_concat_ws sep args = none ↔ ∀ v ∈ args, v = none)
      ∧ ((sep.intercalate args.reduceOption).length
          = (args.reduceOption.map List.length).sum
            + (args.reduceOption.length - 1) * sep.length)
      ∧ mysql_concat_ws ",".toList [some "x".toList, none, some "y".toList]
          = some "x,y".toList := by
  have h1 : mysql_concat_ws sep args
      = (if args.reduceOption = [] then none
         else some (sep.intercalate args.reduceOption)) := by
    unfold mysql_concat_ws
    rw [mysql_concat_ws_loop_spec]
    by_cases hr : args.reduceOption = [] <;> simp [hr]
  refine ⟨h1, ?_, ?_, by decide⟩
  · rw [h1]
    have := reduceOption_eq_nil_iff args
    by_cases hr : args.reduceOption = [] <;> simp [hr, ← this]
  · generalize args.reduceOption = l
    induction l with
    | nil => simp [List.intercalate]
    | cons x xs ih =>
      cases xs with
      | nil => simp [List.intercalate]
      | cons y ys =>
        have e : sep.intercalate (x :: y :: ys) = x ++ sep ++ sep.intercalate (y :: ys) := by
          simp [List.intercalate, List.intersperse]
        rw [e]
        simp only [List.length_append, ih, List.map_cons, List.sum_cons, List.length_cons]
        simp only [Nat.add_sub_cancel]
        ring

theorem firstIndexOf_eq_some_iff {α : Type} [DecidableEq α] (a : α) (l : List α) :
    ∀ i : Nat, firstIndexOf a l = some i
      ↔ (l.get? i = some a ∧ ∀ j, j < i → l.get? j ≠ some a) := by
  induction l with
  | nil => intro i; simp [firstIndexOf]
  | cons x xs ih =>
    intro i
    by_cases hx : x = a
    · subst hx
      cases i with
      | zero => simp [firstIndexOf]
      | succ i =>
        simp only [firstIndexOf, if_true, Option.some.injEq, List.get?_cons_succ]
        constructor
        · intro h; omega
        · rintro ⟨-, h2⟩
          exact absurd rfl (h2 0 (by omega))
    · cases i with
      | zero => simp [firstIndexOf, hx]
      | succ i =>
        simp only [firstIndexOf, if_neg hx, Option.map_eq_some', Nat.add_right_cancel_iff,
          exists_eq_right, List.get?_cons_succ]
        rw [ih i]
        constructor
        · rintro ⟨h1, h2⟩
          refine ⟨h1, fun j hj => ?_⟩
          cases j with
          | zero => simpa using hx
          | succ j => simpa using h2 j (by omega)
        · rintro ⟨h1, h2⟩
          exact ⟨h1, fun j hj => by simpa using h2 (j + 1) (by omega)⟩

theorem firstIndexOf_eq_none_iff {α : Type} [DecidableEq α] (a : α) (l : List α) :
    firstIndexOf a l = none ↔ a ∉ l := by
  induction l with
  | nil => simp [firstIndexOf]
  | cons x xs ih =>
    by_cases hx : x = a
    · simp [firstIndexOf, hx]
    · have hx2 : ¬ a = x := fun e => hx e.symm
      simp [firstIndexOf, hx, hx2, ih]

theorem mysql_field_loop_eq (needle : List Char) (args : List (Option (List Char))) :
    ∀ k, mysql_field_loop needle args k
      = (match firstIndexOf (some needle) args with
         | some i => k + i
         | none => 0) := by
  induction args with
  | nil => intro k; simp [mysql_field_loop, firstIndexOf]
  | cons a rest ih =>
    intro k
    cases a with
    | none =>
      rw [mysql_field_loop, ih]
      simp only [firstIndexOf, reduceCtorEq, if_false]
      cases firstIndexOf (some needle) rest with
      | none => rfl
      | some i => simp only [Option.map_some']; show k + 1 + i = k + (i + 1); omega
    | some v =>
      rw [mysql_field_loop]
      by_cases hv : needle = v
      · subst hv; simp [firstIndexOf]
      · have hv2 : ¬ ((some v : Option (List Char)) = some needle) := by
          intro e; injection e with e; exact hv e.symm
        rw [if_neg hv, ih]
        simp only [firstIndexOf, if_neg hv2]
        cases firstIndexOf (some needle) rest with
        | none => rfl
        | some i => simp only [Option.map_some']; show k + 1 + i = k + (i + 1); omega

/-- C16: for a non-Null needle, `FIELD` returns 0 exactly when no argument is a
non-Null value equal to the needle, and returns `i` (1-based) exactly when `vi` is
such a value and no earlier argument is; Null arguments never match;
`FIELD("b","a","b","c")` is 2 and `FIELD("z","a","b")` is 0. -/
theorem mysql_field_spec (needle : List Char) (args : List (Option (List Char))) :
    (mysql_field needle args = 0 ↔ ∀ v ∈ args, v ≠ some needle)
      ∧ (∀ i : Nat, mysql_field needle args = i + 1
          ↔ (args.get? i = some (some needle)
              ∧ ∀ j, j < i → args.get? j ≠ some (some needle)))
      ∧ mysql_field "b".toList [some "a".toList, some "b".toList, some "c".toList] = 2
      ∧ mysql_field "z".toList [some "a".toList, some "b".toList] = 0 := by
  have h := mysql_field_loop_eq needle args 1
  refine ⟨?_, fun i => ?_, by decide, by decide⟩
  · unfold mysql_field
    cases hf : firstIndexOf (some needle) args with
    | none =>
      simp only [h, hf, true_iff]
      intro v hv e
      exact (firstIndexOf_eq_none_iff _ _).1 hf (e ▸ hv)
    | some i =>
      have hm : some needle ∈ args := by
        by_contra hc
        rw [(firstIndexOf_eq_none_iff _ _).2 hc] at hf
        exact absurd hf (by simp)
      simp only [h, hf]
      clear h
      constructor
      · intro h0; exact absurd h0 (by rw [Nat.add_comm]; exact Nat.succ_ne_zero i)
      · intro h0; exact absurd rfl (h0 _ hm)
  · unfold mysql_field
    rw [← firstIndexOf_eq_some_iff]
    cases hf : firstIndexOf (some needle) args with
    | none => simp [h, hf]
    | some k =>
      simp only [h, hf, Option.some.injEq]
      clear h
      rw [Nat.add_comm 1 k]
      constructor <;> intro h0 <;> omega

/-- C17: `ELT(n, v1..vk)` is Null if and only if `n < 1`, `n > k` or `vn` is Null,
and is `vn` otherwise; `ELT(2,"a","b","c")` is `"b"`, `ELT(0,"a","b")` and
`ELT(5,"a","b")` are Null. -/
theorem mysql_elt_spec (n : Int) (vals : List (Option (List Char))) :
    (mysql_elt n vals = none
        ↔ n < 1 ∨ n > vals.length ∨ vals.get? (n - 1).toNat = some none)
      ∧ (∀ t, mysql_elt n vals = some t
          ↔ 1 ≤ n ∧ n ≤ vals.length ∧ vals.get? (n - 1).toNat = some (some t))
      ∧ mysql_elt 2 [some "a".toList, some "b".toList, some "c".toList] = some "b".toList
      ∧ mysql_elt 0 [some "a".toList, some "b".toList] = none
      ∧ mysql_elt 5 [some "a".toList, some "b".toList] = none := by
  refine ⟨?_, fun t => ?_, by decide, by decide, by decide⟩
  · unfold mysql_elt
    by_cases hr : n < 1 ∨ n ≥ (vals.length : Int) + 1
    · rw [if_pos hr]
      simp only [true_iff]
      rcases hr with h | h
      · exact Or.inl h
      · exact Or.inr (Or.inl (by omega))
    · rw [if_neg hr]
      have hlt : (n - 1).toNat < vals.length := by omega
      obtain ⟨v, hv⟩ : ∃ v, vals.get? (n - 1).toNat = some v :=
        ⟨_, List.get?_eq_get hlt⟩
      rw [hv]
      cases v with
      | none =>
        simp
      | some t =>
        simp only [reduceCtorEq, Option.some.injEq, false_iff, not_or]
        exact ⟨by omega, by omega, by simp⟩
  · unfold mysql_elt
    by_cases hr : n < 1 ∨ n ≥ (vals.length : Int) + 1
    · rw [if_pos hr]
      simp only [reduceCtorEq, false_iff, not_and]
      intro h1 h2
      omega
    · rw [if_neg hr]
      have hlt : (n - 1).toNat < vals.length := by omega
      obtain ⟨v, hv⟩ : ∃ v, vals.get? (n - 1).toNat = some v :=
        ⟨_, List.get?_eq_get hlt⟩
      rw [hv]
      cases v with
      | none => simp
      | some u =>
        simp only [Option.some.injEq]
        constructor
        · intro e; exact ⟨by omega, by omega, e⟩
        · intro e; exact e.2.2

/-! ## TRIM family -/

theorem str_ltrim_idem (s c : List Char) : str_ltrim (str_ltrim s c) c = str_ltrim s c := by
  unfold str_ltrim
  exact List.dropWhile_idempotent _ _

theorem str_rtrim_idem (s c : List Char) : str_rtrim (str_rtrim s c) c = str_rtrim s c := by
  unfold str_rtrim
  rw [List.reverse_reverse, List.dropWhile_idempotent]

/-- C19: trimming one side twice gives the same text as trimming it once, for every
text and every set of trim characters, the default set included: with only the
leading flag, and with only the trailing flag, `mysql_trim_family` is
idempotent. -/
theorem mysql_trim_family_idempotent (s : List Char) (chars : Option (List Char)) :
    mysql_trim_family (mysql_trim_family s chars false true false) chars false true false
        = mysql_trim_family s chars false true false
      ∧ mysql_trim_family (mysql_trim_family s chars false false true) chars false false true
        = mysql_trim_family s chars false false true
      ∧ mysql_ltrim (mysql_ltrim s chars) chars = mysql_ltrim s chars
      ∧ mysql_rtrim (mysql_rtrim s chars) chars = mysql_rtrim s chars := by
  have h1 : mysql_trim_family (mysql_trim_family s chars false true false) chars false true
      false = mysql_trim_family s chars false true false := by
    simp only [mysql_trim_family, Bool.or_false, Bool.false_or, if_true, Bool.false_eq_true,
      if_false]
    exact str_ltrim_idem _ _
  have h2 : mysql_trim_family (mysql_trim_family s chars false false true) chars false false
      true = mysql_trim_family s chars false false true := by
    simp only [mysql_trim_family, Bool.or_false, Bool.false_or, if_true, Bool.false_eq_true,
      if_false]
    exact str_rtrim_idem _ _
  exact ⟨h1, h2, h1, h2⟩

/-! ## FIND_IN_SET -/

theorem splitOnChar_eq (c : Char) (s : List Char) :
    splitOnChar c s = s.takeWhile (fun x => x != c)
      :: (match s.dropWhile (fun x => x != c) with
          | [] => []
          | _ :: r => splitOnChar c r) := by
  induction s with
  | nil => simp [splitOnChar]
  | cons x xs ih =>
    by_cases hx : x = c
    · subst hx
      simp [splitOnChar]
    · have h1 : (x != c) = true := by simpa using hx
      rw [splitOnChar, if_neg hx, ih]
      simp only [List.takeWhile_cons, List.dropWhile_cons, h1, if_true]

theorem dropWhile_length_le (p : Char → Bool) (l : List Char) :
    (l.dropWhile p).length ≤ l.length :=
  (List.dropWhile_sublist p).length_le

theorem find_in_set_loop_none (n : List Char) (fuel pos : Nat) :
    find_in_set_loop n fuel none pos = 0 := by
  cases fuel <;> rfl

theorem find_in_set_loop_eq (n : List Char) :
    ∀ (fuel : Nat) (s : List Char) (pos : Nat), s.length < fuel →
      find_in_set_loop n fuel (pg_strtok_r ',' (some s)) pos
        = (match firstIndexOf n ((splitOnChar ',' s).map str_trim) with
           | some i => pos + i
           | none => 0) := by
  intro fuel
  induction fuel with
  | zero => intro s pos h; omega
  | succ fuel ih =>
    intro s pos hlen
    have hle := dropWhile_length_le (fun x => x != ',') s
    rw [splitOnChar_eq ',' s]
    simp only [pg_strtok_r, find_in_set_loop, List.map_cons, firstIndexOf]
    by_cases hn : n = str_trim (s.takeWhile (fun x => x != ','))
    · rw [if_pos hn, if_pos hn.symm]
      rfl
    · have hn2 : ¬ (str_trim (s.takeWhile (fun x => x != ',')) = n) := fun e => hn e.symm
      rw [if_neg hn, if_neg hn2]
      cases hd : s.dropWhile (fun x => x != ',') with
      | nil =>
        simp only [List.map_nil, firstIndexOf, Option.map_none']
        exact find_in_set_loop_none n fuel (pos + 1)
      | cons d r =>
        have hr : r.length < fuel := by
          rw [hd] at hle
          simp only [List.length_cons] at hle
          omega
        have := ih r (pos + 1) hr
        simp only [pg_strtok_r] at this
        simp only [this]
        cases firstIndexOf n (List.map str_trim (splitOnChar ',' r)) with
        | none => rfl
        | some i => simp only [Option.map_some']; show pos + 1 + i = pos + (i + 1); omega

/-- C13: `FIND_IN_SET(needle, csv)` is the 1-based index of the first element equal
to the needle in the list of the pieces of `csv` between commas, each trimmed of
surrounding whitespace (an empty piece between adjacent commas is an element and
takes a position), and 0 when no element matches; `FIND_IN_SET("b", "a, b ,c")`
is 2, and in `"a,,b"` the piece `"b"` has position 3. -/
theorem mysql_find_in_set_spec (needle csv : List Char) :
    mysql_find_in_set needle csv = specFindInSetAllPieces needle csv
      ∧ mysql_find_in_set "b".toList "a, b ,c".toList = 2
      ∧ mysql_find_in_set "b".toList "a,,b".toList = 3 := by
  refine ⟨?_, by decide, by decide⟩
  unfold mysql_find_in_set specFindInSetAllPieces specPosition
  rw [find_in_set_loop_eq needle _ csv 1 (by omega)]
  cases firstIndexOf needle (List.map str_trim (splitOnChar ',' csv)) with
  | none => rfl
  | some i => show 1 + i = i + 1; omega

/-! ## INET_ATON -/

set_option maxRecDepth 1000000 in
theorem toDigits_octet : ∀ a : Fin 256,
    Nat.toDigits 10 a.val ≠ [] ∧ (Nat.toDigits 10 a.val).all Char.isDigit = true
      ∧ digitsValue (Nat.toDigits 10 a.val) = a.val := by
  decide

theorem pack_octets (a b c d : Nat) (hb : b ≤ 255) (hc : c ≤ 255)
    (hd : d ≤ 255) :
    (((a <<< 24) ||| ((b <<< 16) % 2 ^ 32)) ||| ((c <<< 8) % 2 ^ 32)) ||| d
      = a * 2 ^ 24 + b * 2 ^ 16 + c * 2 ^ 8 + d := by
  have e1 : (b <<< 16) % 2 ^ 32 = 2 ^ 16 * b := by rw [Nat.shiftLeft_eq]; omega
  have e2 : (c <<< 8) % 2 ^ 32 = 2 ^ 8 * c := by rw [Nat.shiftLeft_eq]; omega
  have e3 : a <<< 24 = 2 ^ 24 * a := by rw [Nat.shiftLeft_eq]; omega
  rw [e1, e2, e3, Nat.lor_assoc, Nat.lor_assoc]
  rw [← Nat.mul_add_lt_is_or (by omega : d < 2 ^ 8) c]
  rw [← Nat.mul_add_lt_is_or (by omega : 2 ^ 8 * c + d < 2 ^ 16) b]
  rw [← Nat.mul_add_lt_is_or (by omega : 2 ^ 16 * b + (2 ^ 8 * c + d) < 2 ^ 24) a]
  omega


theorem isDigit_not_space (c : Char) (h : c.isDigit = true) :
    isspace c = false ∧ c ≠ '-' ∧ c ≠ '+' ∧ c ≠ '.' := by
  refine ⟨?_, ?_, ?_, ?_⟩
  · simp only [isspace, Bool.or_eq_false_iff, decide_eq_false_iff_not]
    refine ⟨⟨⟨⟨⟨?_, ?_⟩, ?_⟩, ?_⟩, ?_⟩, ?_⟩ <;> (rintro rfl; exact absurd h (by decide))
  all_goals (rintro rfl; exact absurd h (by decide))

/-- A `%u` directive on white space, an optional sign, digits and further input
that does not start with a digit. -/
theorem scan_u_number (stored : Bool → Nat → Nat) (ws sg ds rest : List Char)
    (hws : ∀ c ∈ ws, isspace c = true) (hsg : sg = [] ∨ sg = ['+'] ∨ sg = ['-'])
    (hne : ds ≠ []) (hds : ∀ c ∈ ds, c.isDigit = true)
    (hrest : rest.takeWhile Char.isDigit = []) :
    scan_u stored (ws ++ (sg ++ ds) ++ rest)
      = some (storeUnsigned stored (sg == ['-']) (digitsValue ds), rest) := by
  obtain ⟨c, ds', rfl⟩ := List.exists_cons_of_ne_nil hne
  have hc := isDigit_not_space c (hds c (by simp))
  have hdrop : rest.dropWhile Char.isDigit = rest := by
    have := List.takeWhile_append_dropWhile Char.isDigit rest
    rw [hrest] at this
    simpa using this
  have htake : (c :: ds' ++ rest).takeWhile Char.isDigit = c :: ds' := by
    rw [List.takeWhile_append_of_pos hds, hrest, List.append_nil]
  have hdrop2 : (c :: ds' ++ rest).dropWhile Char.isDigit = rest := by
    rw [List.dropWhile_append_of_pos hds, hdrop]
  have hsp : ∀ t : List Char, (∀ x, t.head? = some x → isspace x = false) →
      (ws ++ t).dropWhile isspace = t := by
    intro t ht
    rw [List.dropWhile_append_of_pos hws]
    cases t with
    | nil => rfl
    | cons x xs =>
      have := ht x rfl
      simp only [List.dropWhile_cons, this, Bool.false_eq_true, if_false]
  unfold scan_u
  rw [List.append_assoc]
  rcases hsg with rfl | rfl | rfl
  · rw [hsp _ (by intro x hx; simp at hx; subst hx; exact hc.1)]
    have h1 : ((c :: ds' ++ rest).head? == some '-') = false := by
      simpa using hc.2.1
    have h2 : ((c :: ds' ++ rest).head? == some '+') = false := by
      simpa using hc.2.2.1
    simp only [List.nil_append, h1, h2, Bool.or_self, Bool.false_eq_true, if_false, htake,
      hdrop2, reduceCtorEq]
    rfl
  · rw [hsp _ (by intro x hx; simp at hx; subst hx; decide)]
    simp only [List.cons_append, List.nil_append, List.head?_cons, List.drop_succ_cons,
      List.drop_zero]
    have h1 : ((some '+' : Option Char) == some '-') = false := by decide
    have h2 : ((some '+' : Option Char) == some '+') = true := by decide
    simp only [h1, h2, Bool.false_or, if_true]
    rw [← List.cons_append, htake, hdrop2]
    simp only [reduceCtorEq, if_false]
    rfl
  · rw [hsp _ (by intro x hx; simp at hx; subst hx; decide)]
    simp only [List.cons_append, List.nil_append, List.head?_cons, List.drop_succ_cons,
      List.drop_zero]
    have h1 : ((some '-' : Option Char) == some '-') = true := by decide
    simp only [h1, Bool.true_or, if_true]
    rw [← List.cons_append, htake, hdrop2]
    simp only [reduceCtorEq, if_false]
    rfl

/-- What a successful `%u` directive has consumed is a number in the sense of
`SpecScannedNumber`. -/
theorem scan_u_consumed (stored : Bool → Nat → Nat) (s r : List Char) (v : Nat)
    (h : scan_u stored s = some (v, r)) : ∃ n, SpecScannedNumber n ∧ s = n ++ r := by
  unfold scan_u at h
  simp only [] at h
  have e1 := (List.takeWhile_append_dropWhile isspace s).symm
  by_cases hsgn : ((s.dropWhile isspace).head? == some '-'
      || (s.dropWhile isspace).head? == some '+') = true
  · rw [if_pos hsgn] at h
    by_cases hd : ((s.dropWhile isspace).drop 1).takeWhile Char.isDigit = []
    · rw [if_pos hd] at h; exact absurd h (by simp)
    · rw [if_neg hd] at h
      injection h with h
      injection h with hv hr
      have hs1 : s.dropWhile isspace ≠ [] := by
        intro e; rw [e] at hsgn; simp at hsgn
      obtain ⟨x, xs, hx⟩ := List.exists_cons_of_ne_nil hs1
      rw [hx] at hsgn hr hd e1
      simp only [List.drop_succ_cons, List.drop_zero] at hr hd
      have e2 := (List.takeWhile_append_dropWhile Char.isDigit xs).symm
      refine ⟨s.takeWhile isspace ++ ([x] ++ xs.takeWhile Char.isDigit),
        ⟨_, [x], _, rfl, fun c hc => List.mem_takeWhile_imp hc, ?_, hd,
          fun c hc => List.mem_takeWhile_imp hc⟩, ?_⟩
      · simp only [List.head?_cons, Bool.or_eq_true, beq_iff_eq, Option.some.injEq] at hsgn
        rcases hsgn with e | e
        · exact Or.inr (Or.inr (by rw [e]))
        · exact Or.inr (Or.inl (by rw [e]))
      · rw [← hr]
        conv_lhs => rw [e1, e2]
        simp
  · rw [if_neg hsgn] at h
    by_cases hd : (s.dropWhile isspace).takeWhile Char.isDigit = []
    · rw [if_pos hd] at h; exact absurd h (by simp)
    · rw [if_neg hd] at h
      injection h with h
      injection h with hv hr
      have e2 := (List.takeWhile_append_dropWhile Char.isDigit (s.dropWhile isspace)).symm
      refine ⟨s.takeWhile isspace ++ ([] ++ (s.dropWhile isspace).takeWhile Char.isDigit),
        ⟨_, [], _, rfl, fun c hc => List.mem_takeWhile_imp hc, Or.inl rfl, hd,
          fun c hc => List.mem_takeWhile_imp hc⟩, ?_⟩
      rw [← hr]
      conv_lhs => rw [e1, e2]
      simp

theorem scan_char_eq (c : Char) (s r : List Char) (h : scan_char c s = some r) :
    s = c :: r := by
  cases s with
  | nil => simp [scan_char] at h
  | cons x xs =>
    simp only [scan_char] at h
    split_ifs at h with hx
    injection h with h
    rw [hx, h]

theorem sscanf_u4_consumed (stored : Bool → Nat → Nat) (s : List Char)
    (q : Nat × Nat × Nat × Nat) (h : sscanf_u4 stored s = some q) :
    SpecStartsWithQuad s := by
  unfold sscanf_u4 at h
  cases h1 : scan_u stored s with
  | none => rw [h1] at h; exact absurd h (by simp)
  | some p1 =>
    obtain ⟨a, r1⟩ := p1
    rw [h1] at h
    simp only [] at h
    cases h2 : scan_char '.' r1 with
    | none => rw [h2] at h; exact absurd h (by simp)
    | some r2 =>
      rw [h2] at h
      simp only [] at h
      cases h3 : scan_u stored r2 with
      | none => rw [h3] at h; exact absurd h (by simp)
      | some p3 =>
        obtain ⟨b, r3⟩ := p3
        rw [h3] at h
        simp only [] at h
        cases h4 : scan_char '.' r3 with
        | none => rw [h4] at h; exact absurd h (by simp)
        | some r4 =>
          rw [h4] at h
          simp only [] at h
          cases h5 : scan_u stored r4 with
          | none => rw [h5] at h; exact absurd h (by simp)
          | some p5 =>
            obtain ⟨c, r5⟩ := p5
            rw [h5] at h
            simp only [] at h
            cases h6 : scan_char '.' r5 with
            | none => rw [h6] at h; exact absurd h (by simp)
            | some r6 =>
              rw [h6] at h
              simp only [] at h
              cases h7 : scan_u stored r6 with
              | none => rw [h7] at h; exact absurd h (by simp)
              | some p7 =>
                obtain ⟨d, r7⟩ := p7
                obtain ⟨n1, hn1, e1⟩ := scan_u_consumed stored _ _ _ h1
                obtain ⟨n2, hn2, e2⟩ := scan_u_consumed stored _ _ _ h3
                obtain ⟨n3, hn3, e3⟩ := scan_u_consumed stored _ _ _ h5
                obtain ⟨n4, hn4, e4⟩ := scan_u_consumed stored _ _ _ h7
                have d1 := scan_char_eq _ _ _ h2
                have d2 := scan_char_eq _ _ _ h4
                have d3 := scan_char_eq _ _ _ h6
                refine ⟨n1, n2, n3, n4, r7, hn1, hn2, hn3, hn4, ?_⟩
                rw [e1, d1, e2, d2, e3, d3, e4]

theorem takeWhile_isDigit_point (r : List Char) :
    ('.' :: r).takeWhile Char.isDigit = [] := by
  have : Char.isDigit '.' = false := by decide
  simp only [List.takeWhile_cons, this, Bool.false_eq_true, if_false]

theorem sscanf_u4_of_quad (stored : Bool → Nat → Nat) (s : List Char)
    (h : SpecStartsWithQuad s) : ∃ q, sscanf_u4 stored s = some q := by
  obtain ⟨n1, n2, n3, n4, rest, ⟨w1, g1, d1, rfl, hw1, hg1, hne1, hd1⟩,
    ⟨w2, g2, d2, rfl, hw2, hg2, hne2, hd2⟩, ⟨w3, g3, d3, rfl, hw3, hg3, hne3, hd3⟩,
    ⟨w4, g4, d4, rfl, hw4, hg4, hne4, hd4⟩, rfl⟩ := h
  have s1 := scan_u_number stored w1 g1 d1 _ hw1 hg1 hne1 hd1 (takeWhile_isDigit_point
    (w2 ++ (g2 ++ d2) ++ '.' :: (w3 ++ (g3 ++ d3) ++ '.' :: (w4 ++ (g4 ++ d4) ++ rest))))
  have s2 := scan_u_number stored w2 g2 d2 _ hw2 hg2 hne2 hd2 (takeWhile_isDigit_point
    (w3 ++ (g3 ++ d3) ++ '.' :: (w4 ++ (g4 ++ d4) ++ rest)))
  have s3 := scan_u_number stored w3 g3 d3 _ hw3 hg3 hne3 hd3 (takeWhile_isDigit_point
    (w4 ++ (g4 ++ d4) ++ rest))
  have s4 := scan_u_number stored w4 g4 (d4 ++ rest.takeWhile Char.isDigit)
    (rest.dropWhile Char.isDigit) hw4 hg4 (by simp [hne4])
    (by
      intro c hc
      rcases List.mem_append.1 hc with h | h
      · exact hd4 c h
      · exact List.mem_takeWhile_imp h)
    (by
      cases hr : rest.dropWhile Char.isDigit with
      | nil => rfl
      | cons x xs =>
        have := List.head_dropWhile_not Char.isDigit rest (by rw [hr]; simp)
        simp only [hr, List.head_cons] at this
        simp only [List.takeWhile_cons, this, Bool.false_eq_true, if_false])
  have e4 : w4 ++ (g4 ++ (d4 ++ rest.takeWhile Char.isDigit)) ++ rest.dropWhile Char.isDigit
      = w4 ++ (g4 ++ d4) ++ rest := by
    simp only [List.append_assoc, List.takeWhile_append_dropWhile]
  rw [e4] at s4
  unfold sscanf_u4
  simp only [s1, scan_char, if_true, s2, s3, s4]
  exact ⟨_, rfl⟩


theorem scan_u_octet (stored : Bool → Nat → Nat) (a : Nat) (ha : a ≤ 255)
    (rest : List Char) (hrest : rest.takeWhile Char.isDigit = []) :
    scan_u stored (Nat.toDigits 10 a ++ rest) = some (a, rest) := by
  obtain ⟨h1, h2, h3⟩ := toDigits_octet ⟨a, by omega⟩
  have h := scan_u_number stored [] [] (Nat.toDigits 10 a) rest (by simp) (Or.inl rfl) h1
    (by simpa using h2) hrest
  have hs : storeUnsigned stored ([] == ['-']) (digitsValue (Nat.toDigits 10 a)) = a := by
    simp only [] at h3
    rw [h3]
    unfold storeUnsigned
    have : a < 2 ^ 32 := by omega
    simp only [BEq.beq, List.beq, Bool.not_false, Bool.true_or, Bool.true_and, decide_eq_true_eq,
      this, if_true]
  rw [hs] at h
  simpa using h

/-- C11: for `a, b, c, d ≤ 255`, `INET_ATON` of their decimal renderings joined by
`'.'` is the non-Null integer `a*2^24 + b*2^16 + c*2^8 + d`, which lies in
`[0, 2^32)`; `INET_ATON("192.168.1.1")` is 3232235777. -/
theorem mysql_inet_aton_octets (stored : Bool → Nat → Nat) (a b c d : Nat)
    (ha : a ≤ 255) (hb : b ≤ 255) (hc : c ≤ 255) (hd : d ≤ 255) :
    mysql_inet_aton stored (dottedDecimal a b c d)
        = some ((a : Int) * 2 ^ 24 + b * 2 ^ 16 + c * 2 ^ 8 + d)
      ∧ (0 : Int) ≤ (a : Int) * 2 ^ 24 + b * 2 ^ 16 + c * 2 ^ 8 + d
      ∧ (a : Int) * 2 ^ 24 + b * 2 ^ 16 + c * 2 ^ 8 + d < 2 ^ 32
      ∧ mysql_inet_aton stored "192.168.1.1".toList = some 3232235777 := by
  have key : ∀ a b c d : Nat, a ≤ 255 → b ≤ 255 → c ≤ 255 → d ≤ 255 →
      mysql_inet_aton stored (dottedDecimal a b c d)
        = some ((a : Int) * 2 ^ 24 + b * 2 ^ 16 + c * 2 ^ 8 + d) := by
    intro a b c d ha hb hc hd
    have s1 := scan_u_octet stored a ha _ (takeWhile_isDigit_point
      (Nat.toDigits 10 b ++ '.' :: (Nat.toDigits 10 c ++ '.' :: Nat.toDigits 10 d)))
    have s2 := scan_u_octet stored b hb _ (takeWhile_isDigit_point
      (Nat.toDigits 10 c ++ '.' :: Nat.toDigits 10 d))
    have s3 := scan_u_octet stored c hc _ (takeWhile_isDigit_point (Nat.toDigits 10 d))
    have s4 := scan_u_octet stored d hd [] rfl
    rw [List.append_nil] at s4
    unfold mysql_inet_aton sscanf_u4 dottedDecimal
    simp only [s1, scan_char, if_true, s2, s3, s4, pack_octets a b c d hb hc hd]
    push_cast
    rfl
  refine ⟨key a b c d ha hb hc hd, by positivity, by omega, ?_⟩
  have := key 192 168 1 1 (by decide) (by decide) (by decide) (by decide)
  have e : dottedDecimal 192 168 1 1 = "192.168.1.1".toList := by decide
  rw [e] at this
  rw [this]
  rfl

/-- C11 at the octets of `192.168.1.1`. -/
theorem mysql_inet_aton_octets_witness :
    mysql_inet_aton (fun _ m => m) (dottedDecimal 192 168 1 1)
      = some (((192 : Nat) : Int) * 2 ^ 24 + ((168 : Nat) : Int) * 2 ^ 16
          + ((1 : Nat) : Int) * 2 ^ 8 + ((1 : Nat) : Int)) :=
  (mysql_inet_aton_octets (fun _ m => m) 192 168 1 1 (by decide) (by decide) (by decide)
    (by decide)).1

/-- C12, as stated, fails: `"1.2.3.4x"` and `"1.2.3.4.5"` are not four numbers
separated by three dots, yet `INET_ATON` returns 16909060 for both, not Null. -/
theorem inet_aton_trailing_input_accepted :
    specIsDottedQuad "1.2.3.4x".toList = false
      ∧ mysql_inet_aton (fun _ m => m) "1.2.3.4x".toList = some 16909060
      ∧ specIsDottedQuad "1.2.3.4.5".toList = false
      ∧ mysql_inet_aton (fun _ m => m) "1.2.3.4.5".toList = some 16909060 := by
  decide

/-- C12, amended: `INET_ATON` returns Null exactly for the inputs that do not begin
with four numbers separated by three `'.'`, a number being what `%u` accepts
(white space, an optional sign, digits); it returns Null for `"1.2.3"` and
`"a.b.c.d"`, and no call raises an error.  Input behind the fourth number is not
examined. -/
theorem mysql_inet_aton_null_iff (stored : Bool → Nat → Nat) (s : List Char) :
    (mysql_inet_aton stored s = none ↔ ¬ SpecStartsWithQuad s)
      ∧ mysql_inet_aton stored "1.2.3".toList = none
      ∧ mysql_inet_aton stored "a.b.c.d".toList = none := by
  refine ⟨?_, rfl, rfl⟩
  constructor
  · intro h hq
    obtain ⟨q, hq⟩ := sscanf_u4_of_quad stored s hq
    unfold mysql_inet_aton at h
    rw [hq] at h
    exact absurd h (by simp)
  · intro h
    cases hs : sscanf_u4 stored s with
    | none => unfold mysql_inet_aton; rw [hs]
    | some q => exact absurd (sscanf_u4_consumed stored s q hs) h

/-! ## FORMAT of negative numbers -/

theorem mysql_format_point_of_not_mem (moved : Bool) (j0 j1 : Char) (I F : List Char)
    (d : Nat) (hIn : NUL ∉ I) (hId : '.' ∉ I) (hFn : NUL ∉ F) (hFd : d ≤ F.length) :
    mysql_format moved j0 j1 (I ++ '.' :: F) d
      = .ok (specGroupThousands I ++ '.' :: F.take d) := by
  have hTn : NUL ∉ F.take d := fun hm => hFn (List.mem_of_mem_take hm)
  have hc : cstringAt (text_to_cstring (I ++ '.' :: F)) (I.length + 1) = .ok F := by
    have := cstringAt_append (I ++ ['.']) F [] hFn
    simpa [text_to_cstring] using this
  unfold mysql_format
  simp only [strchr_point I F hIn hId hFn, hc]
  by_cases hlt : (F.length : Int) > d
  · have hlt2 : d < F.length := by omega
    have hidx : ((I.length : Int) + d + 1).toNat = (I ++ '.' :: F.take d).length := by
      simp [List.length_take, Nat.min_eq_left hFd]; omega
    have hsplit : text_to_cstring (I ++ '.' :: F)
        = (I ++ '.' :: F.take d) ++ (F[d] :: (F.drop (d + 1) ++ [NUL])) := by
      have := List.take_append_drop d F
      rw [List.drop_eq_getElem_cons hlt2] at this
      simp only [text_to_cstring, List.append_assoc, List.cons_append]
      nth_rewrite 1 [← this]
      simp only [List.append_assoc, List.cons_append]
    rw [if_pos hlt, if_neg (by omega), hidx, hsplit,
      List.set_append_right _ _ (le_refl _), Nat.sub_self, List.set_cons_zero]
    have := formatTail_point I (F.take d) (F.drop (d + 1) ++ [NUL]) hIn hTn
    simpa using this
  · have hlt2 : ¬ ((F.length : Int) < d) := by omega
    have hd : d = F.length := by omega
    rw [if_neg hlt, if_neg hlt2, hd, List.take_length]
    have := formatTail_point I F [] hIn hFn
    simpa [text_to_cstring] using this

theorem mysql_format_nopoint (moved : Bool) (j0 j1 : Char) (I : List Char) (dec : Int)
    (hIn : NUL ∉ I) (hId : '.' ∉ I) :
    mysql_format moved j0 j1 I dec = .ok (specGroupThousands I) := by
  have hs : strchr (text_to_cstring I) '.' = none := by
    unfold strchr text_to_cstring
    simp only [takeWhile_ne_NUL I [] hIn]
    rw [if_neg hId]
  have hg := groupFrom_eq I [] [NUL]
  simp only [List.nil_append, List.length_nil, Nat.zero_add, ne_eq, not_true_eq_false,
    false_and, if_false] at hg
  have hn : NUL ∉ specGroupThousands I := by
    intro hm
    rcases mem_specGroupThousands _ _ hm with h2 | h2
    · exact absurd h2 (by decide)
    · exact hIn h2
  unfold mysql_format
  simp only [hs]
  unfold formatTail
  simp only [cstringAt_text I hIn]
  unfold text_to_cstring
  rw [hg, cstring_to_text_eq_self _ hn]

/-- Where no fraction has to be padded the grouping loop counts the minus sign as a
position.  For a negative number whose integer part `D` has a multiple of three
digits the result begins with `"-,"`; when the number of digits is not a multiple
of three the result is `'-'` followed by the result for the absolute value.  Both
hold without a fraction (any `decimals`) and with a fraction `F` of at least `d`
digits; the text `-123456` is rendered `-,123,456`. -/
theorem mysql_format_negative (moved : Bool) (j0 j1 : Char) (D F : List Char) (d : Nat)
    (dec : Int) (hD : ∀ c ∈ D, c.isDigit = true) (hDne : D ≠ [])
    (hF : ∀ c ∈ F, c.isDigit = true) (hFd : d ≤ F.length) :
    (D.length % 3 = 0 →
        mysql_format moved j0 j1 ('-' :: D) dec = .ok ('-' :: ',' :: specGroupThousands D)
        ∧ mysql_format moved j0 j1 ('-' :: D ++ '.' :: F) d
          = .ok ('-' :: ',' :: (specGroupThousands D ++ '.' :: F.take d)))
      ∧ (D.length % 3 ≠ 0 →
        mysql_format moved j0 j1 D dec = .ok (specGroupThousands D)
        ∧ mysql_format moved j0 j1 ('-' :: D) dec = .ok ('-' :: specGroupThousands D)
        ∧ mysql_format moved j0 j1 (D ++ '.' :: F) d
          = .ok (specGroupThousands D ++ '.' :: F.take d)
        ∧ mysql_format moved j0 j1 ('-' :: D ++ '.' :: F) d
          = .ok ('-' :: (specGroupThousands D ++ '.' :: F.take d)))
      ∧ mysql_format moved j0 j1 "-123456".toList dec = .ok "-,123,456".toList := by
  obtain ⟨hDn, hDd⟩ := not_mem_of_digits D hD
  obtain ⟨hFn, -⟩ := not_mem_of_digits F hF
  have hMn : NUL ∉ '-' :: D := by
    simp only [List.mem_cons, not_or]; exact ⟨by decide, hDn⟩
  have hMd : '.' ∉ '-' :: D := by
    simp only [List.mem_cons, not_or]; exact ⟨by decide, hDd⟩
  have n1 := mysql_format_nopoint moved j0 j1 ('-' :: D) dec hMn hMd
  have n2 := mysql_format_point_of_not_mem moved j0 j1 ('-' :: D) F d hMn hMd hFn hFd
  rw [specGroupThousands_cons] at n1 n2
  refine ⟨fun h3 => ?_, fun h3 => ?_, ?_⟩
  · rw [if_pos ⟨hDne, h3⟩] at n1 n2
    exact ⟨n1, n2⟩
  · have hneg : ¬ (D ≠ [] ∧ D.length % 3 = 0) := fun h => h3 h.2
    rw [if_neg hneg] at n1 n2
    exact ⟨mysql_format_nopoint moved j0 j1 D dec hDn hDd, n1,
      mysql_format_point_of_not_mem moved j0 j1 D F d hDn hDd hFn hFd, n2⟩
  · have := mysql_format_nopoint moved j0 j1 "-123456".toList dec (by decide) (by decide)
    rw [this]
    decide

/-- The unpadded cases at the integer parts `123456` (six digits) and `1234` (four
digits). -/
theorem mysql_format_negative_witness :
    mysql_format false NUL NUL ('-' :: "123456".toList) 0
        = .ok ('-' :: ',' :: specGroupThousands "123456".toList)
      ∧ mysql_format false NUL NUL ('-' :: "1234".toList) 0
        = .ok ('-' :: specGroupThousands "1234".toList) :=
  ⟨((mysql_format_negative false NUL NUL "123456".toList "5".toList 1 0 (by decide)
      (by decide) (by decide) (by decide)).1 (by decide)).1,
    ((mysql_format_negative false NUL NUL "1234".toList "5".toList 1 0 (by decide)
      (by decide) (by decide) (by decide)).2.1 (by decide)).2.1⟩

theorem cstringAt_error (mem : List Char) (off : Nat) (e : Fault)
    (h : cstringAt mem off = .error e) : e = .undefinedBehavior := by
  unfold cstringAt at h
  split_ifs at h
  injection h with h
  exact h.symm

/-- The padding branch of `mysql_format`, taken when the fraction `F` has fewer than
`d` digits: when `repalloc` moves the block, or when neither of the two bytes
behind the padded area is a terminator, the behaviour is undefined. -/
theorem mysql_format_padding_undefined (moved : Bool) (j0 j1 : Char) (I F : List Char)
    (d : Nat) (hIn : NUL ∉ I) (hId : '.' ∉ I) (hFn : NUL ∉ F) (hlt : F.length < d)
    (hsize : ((I ++ '.' :: F).length : Int) + d - F.length + 2 ≤ MaxAllocSize)
    (hbad : moved = true ∨ (j0 ≠ NUL ∧ j1 ≠ NUL)) :
    mysql_format moved j0 j1 (I ++ '.' :: F) d = .error .undefinedBehavior := by
  have hWn : NUL ∉ I ++ '.' :: F := by
    simp only [List.mem_append, List.mem_cons, not_or]
    exact ⟨hIn, by decide, hFn⟩
  have hc : cstringAt (text_to_cstring (I ++ '.' :: F)) (I.length + 1) = .ok F := by
    have := cstringAt_append (I ++ ['.']) F [] hFn
    simpa [text_to_cstring] using this
  unfold mysql_format
  simp only [strchr_point I F hIn hId hFn, hc, cstringAt_text _ hWn]
  rw [if_neg (by omega), if_pos (by omega), if_neg (by omega)]
  cases ht : cstringAt (I ++ '.' :: F ++ List.replicate ((d : Int) - (F.length : Int)).toNat '0'
      ++ [j0, j1]) 0 with
  | error e => rw [cstringAt_error _ _ _ ht]
  | ok t =>
    rcases hbad with hm | ⟨h0, h1⟩
    · simp only [hm, if_true]
    · exfalso
      unfold cstringAt at ht
      rw [if_neg] at ht
      · exact absurd ht (by simp)
      · simp only [List.drop_zero, List.mem_append, List.mem_cons, List.mem_replicate,
          List.mem_singleton, List.not_mem_nil, or_false, not_or]
        exact ⟨⟨⟨hIn, by decide, hFn⟩, fun h => absurd h.2 (by decide)⟩,
          fun h => h0 h.symm, fun h => h1 h.symm⟩

/-- C20: the claim fails where the fraction has to be padded.  For a negative
number with integer digits `D` and a fraction `F` of fewer than `d` digits, such as
`FORMAT(-123456.5, 3)`, the text returned does not begin with `"-,"`: when the
block moves, or when neither byte behind the padded area is a terminator, the
behaviour is undefined and no text is returned. -/
theorem mysql_format_negative_padding (moved : Bool) (j0 j1 : Char) (D F : List Char)
    (d : Nat) (hD : ∀ c ∈ D, c.isDigit = true) (hF : ∀ c ∈ F, c.isDigit = true)
    (hlt : F.length < d)
    (hsize : ((('-' :: D) ++ '.' :: F).length : Int) + d - F.length + 2 ≤ MaxAllocSize)
    (hbad : moved = true ∨ (j0 ≠ NUL ∧ j1 ≠ NUL)) :
    mysql_format moved j0 j1 ('-' :: D ++ '.' :: F) d = .error .undefinedBehavior
      ∧ ∀ r, mysql_format moved j0 j1 ('-' :: D ++ '.' :: F) d ≠ .ok ('-' :: ',' :: r) := by
  obtain ⟨hDn, hDd⟩ := not_mem_of_digits D hD
  obtain ⟨hFn, -⟩ := not_mem_of_digits F hF
  have hMn : NUL ∉ '-' :: D := by
    simp only [List.mem_cons, not_or]; exact ⟨by decide, hDn⟩
  have hMd : '.' ∉ '-' :: D := by
    simp only [List.mem_cons, not_or]; exact ⟨by decide, hDd⟩
  have h := mysql_format_padding_undefined moved j0 j1 ('-' :: D) F d hMn hMd hFn hlt hsize hbad
  refine ⟨h, fun r hr => ?_⟩
  rw [h] at hr
  exact absurd hr (by simp)

/-- C20 at `FORMAT(-123456.5, 3)` when the block moves. -/
theorem mysql_format_negative_padding_witness :
    mysql_format true NUL NUL ('-' :: "123456".toList ++ '.' :: "5".toList) (3 : Nat)
      = .error .undefinedBehavior :=
  (mysql_format_negative_padding true NUL NUL "123456".toList "5".toList 3 (by decide)
    (by decide) (by decide) (by decide) (Or.inl rfl)).1

end MysqlCompat
